import Mathlib

/-
  Verification of the query algebra and local evaluation engine of the
  Kinvey JavaScript SDK (src/src/query.js), as a shallow embedding.

  JavaScript values are modelled by the inductive type JVal; JavaScript
  objects live in an explicit heap (a list of key-value association
  lists) so that the reference aliasing used by Query.join is captured
  faithfully.  Query instances are records in a world; every public
  method of the Query class is translated into a function on worlds.
-/

set_option maxRecDepth 4096

namespace KinveyQuery

/-- Model of a JavaScript number: a finite rational, NaN, or an infinity. -/
inductive JNum where
  | r (q : ℚ)
  | nan
  | inf
  | ninf
deriving DecidableEq, Repr

/-- Model of a JavaScript value.  Plain objects are usually heap cells
referenced through the ref constructor; the obj constructor is an inline
(value-semantics) object used for data records handled by Query.process,
which never participate in the reference aliasing of filters. -/
inductive JVal where
  | null
  | undef
  | bool (b : Bool)
  | num (n : JNum)
  | str (s : String)
  | arr (xs : List JVal)
  | obj (kvs : List (String × JVal))
  | ref (o : Nat)

instance : Inhabited JVal := ⟨.undef⟩

/-- JavaScript truthiness. -/
def truthy : JVal → Bool
  | .null => false
  | .undef => false
  | .bool b => b
  | .num (.r q) => q != 0
  | .num .nan => false
  | .num .inf => true
  | .num .ninf => true
  | .str s => s != ""
  | .arr _ => true
  | .obj _ => true
  | .ref _ => true

/-- lodash isNumber: anything of number type, including NaN and infinities. -/
def isNumber : JVal → Bool
  | .num _ => true
  | _ => false

/-- lodash isString. -/
def isString : JVal → Bool
  | .str _ => true
  | _ => false

/-- lodash isArray. -/
def isArray : JVal → Bool
  | .arr _ => true
  | _ => false

/-- lodash isObject: true for objects and arrays, false for primitives. -/
def isObject : JVal → Bool
  | .arr _ => true
  | .obj _ => true
  | .ref _ => true
  | _ => false

/-- Numeric value of a list of decimal digit characters. -/
def digitsVal (ds : List Char) : ℕ :=
  ds.foldl (fun a c => a * 10 + (c.toNat - 48)) 0

/-- Model of the JavaScript parseFloat builtin on the fragment the SDK
relies on: optional leading whitespace, an optional sign, then decimal
digits with an optional fractional part; NaN when no digit is consumed.
(Exponents and the literal string Infinity are outside the modelled
fragment; no call site in the repository depends on them.) -/
def parseFloat (s : String) : JNum :=
  let cs := s.data.dropWhile (fun c => c = ' ' ∨ c = '\t' ∨ c = '\n' ∨ c = '\r')
  let sign : ℤ := match cs with
    | '-' :: _ => -1
    | _ => 1
  let cs := match cs with
    | '-' :: rest => rest
    | '+' :: rest => rest
    | _ => cs
  let ip := cs.takeWhile Char.isDigit
  let rest := cs.dropWhile Char.isDigit
  let fp := match rest with
    | '.' :: r => r.takeWhile Char.isDigit
    | _ => []
  if ip.isEmpty ∧ fp.isEmpty then .nan
  else .r (mkRat (sign * (digitsVal ip * 10 ^ fp.length + digitsVal fp)) (10 ^ fp.length))

/-- parseFloat applied to an arbitrary value, as the setters do after an
isString test (so in the code it only ever runs on strings); numbers pass
through unchanged, which also matches the builtin. -/
def coerceNum : JVal → JVal
  | .str s => .num (parseFloat s)
  | v => v

/-- A JavaScript object: insertion-ordered association list with unique keys. -/
abbrev Obj := List (String × JVal)

/-- Property read on an object; absent keys yield undefined. -/
def objGet (o : Obj) (k : String) : JVal :=
  match o.find? (fun kv => kv.1 = k) with
  | some kv => kv.2
  | none => (.undef : JVal)

/-- Property write on an object: overwrite in place keeping insertion
position, or append a new key at the end, as JavaScript does. -/
def objSet (o : Obj) (k : String) (v : JVal) : Obj :=
  match o with
  | [] => [(k, v)]
  | kv :: rest => if kv.1 = k then (k, v) :: rest else kv :: objSet rest k v

/-- The heap of plain objects; object identifiers index into it. -/
abbrev Heap := List Obj

/-- Read a heap cell; dangling identifiers read as the empty object. -/
def heapGet (h : Heap) (i : ℕ) : Obj := h.getD i []

/-- Overwrite a heap cell. -/
def heapSet (h : Heap) (i : ℕ) (o : Obj) : Heap := h.set i o

/-- Allocate a fresh object. -/
def alloc (h : Heap) (o : Obj) : Heap × ℕ := (h ++ [o], h.length)

/-- The state of one Query instance: the backing slots of the fields,
filter, sort, limit and skip accessors, the internal underscore-parent
reference read by the boolean combinators and by toPlainObject, and the
plain parent property that Query.join assigns (the source writes
that.parent, not that. _parent, so the two are distinct slots). -/
structure QRec where
  fieldsV : JVal
  filterV : JVal
  sortV : JVal
  limitV : JVal
  skipV : JVal
  parentRef : Option ℕ
  parentProp : Option ℕ

instance : Inhabited QRec :=
  ⟨⟨.arr [], .ref 0, .ref 0, .null, .num (.r 0), none, none⟩⟩

/-- A world: the object heap together with all Query instances. -/
structure World where
  heap : Heap
  qs : List QRec

/-- Read a query record. -/
def getQ (w : World) (i : ℕ) : QRec := w.qs.getD i default

/-- Replace a query record. -/
def setQ (w : World) (i : ℕ) (q : QRec) : World :=
  { w with qs := w.qs.set i q }

/-- Follow the underscore-parent chain to the authoritative root; fuel
bounds the walk (parent chains in reachable worlds are trivial because the
source never assigns the underscore-parent slot). -/
def resolveRoot (w : World) : ℕ → ℕ → ℕ
  | 0, i => i
  | fuel + 1, i =>
    match (getQ w i).parentRef with
    | some p => resolveRoot w fuel p
    | none => i

/-- The canonical plain-object snapshot returned by toPlainObject. -/
structure PlainQ where
  fields : JVal
  filter : JVal
  sort : JVal
  skip : JVal
  limit : JVal

/-- Query.toPlainObject: delegate to the authoritative root, then return
the five components (the filter and sort components are shared by
reference, not copied). -/
def toPlainObject (w : World) (i : ℕ) : PlainQ :=
  let q := getQ w (resolveRoot w (w.qs.length + 1) i)
  ⟨q.fieldsV, q.filterV, q.sortV, q.skipV, q.limitV⟩

/-- Validation performed by the fields setter: default a falsy argument to
an empty array, then require an array. -/
def fieldsSetCore (v : JVal) : Except String JVal :=
  let fv := if truthy v then v else .arr []
  if isArray fv then .ok fv else .error "fields must be an Array"

/-- Validation performed by the sort setter: reject truthy non-objects,
default a falsy argument to a freshly allocated empty object. -/
def sortSetCore (h : Heap) (v : JVal) : Heap × Except String JVal :=
  if truthy v ∧ ¬ isObject v then (h, .error "sort must an Object")
  else if truthy v then (h, .ok v)
  else
    let (h', r) := alloc h []
    (h', .ok (.ref r))

/-- Validation performed by the limit setter: parseFloat on strings, then
reject truthy non-numbers.  Falsy non-numbers (null, undefined, false, 0)
are stored unchanged, and NaN or infinite numbers pass the check. -/
def limitSetCore (v : JVal) : Except String JVal :=
  let v := if isString v then coerceNum v else v
  if truthy v ∧ ¬ isNumber v then .error "limit must be a number" else .ok v

/-- Validation performed by the skip setter: parseFloat on strings, then
require number type.  NaN and negative numbers pass the check. -/
def skipSetCore (v : JVal) : Except String JVal :=
  let v := if isString v then coerceNum v else v
  if ¬ isNumber v then .error "skip must be a number" else .ok v

/-- The body of the Query constructor after the lodash assign merge: the
five property setters run in source order (fields, filter, sort, limit,
skip); on success a fresh query record with a null underscore-parent is
appended, and a validation error aborts construction, leaving the heap
with whatever was allocated before the throw. -/
def constructorCore (w : World) (h2 : Heap)
    (fieldsIn filterIn sortIn limitIn skipIn : JVal) : World × Except String ℕ :=
  match fieldsSetCore fieldsIn with
  | .error e => ({ w with heap := h2 }, .error e)
  | .ok fv =>
    match sortSetCore h2 sortIn with
    | (h3, .error e) => ({ w with heap := h3 }, .error e)
    | (h3, .ok sv) =>
      match limitSetCore limitIn with
      | .error e => ({ w with heap := h3 }, .error e)
      | .ok lv =>
        match skipSetCore skipIn with
        | .error e => ({ w with heap := h3 }, .error e)
        | .ok kv =>
          ({ heap := h3, qs := w.qs ++ [⟨fv, filterIn, sv, lv, kv, none, none⟩] },
           .ok w.qs.length)

/-- Option lookup of the lodash assign merge: the value stored under a
key, or the default when the key is absent. -/
def pickOpt (opts : List (String × JVal)) (k : String) (dflt : JVal) : JVal :=
  match opts.find? (fun kv => kv.1 = k) with
  | some kv => kv.2
  | none => dflt

/-- The Query constructor, given the option entries (lodash assign merges
them over the defaults; the default filter and sort objects are allocated
before the merge, exactly as evaluating the defaults literal does). -/
def constructorOpts (w : World) (opts : List (String × JVal)) : World × Except String ℕ :=
  let (h1, dF) := alloc w.heap []
  let (h2, dS) := alloc h1 []
  constructorCore w h2 (pickOpt opts "fields" (.arr [])) (pickOpt opts "filter" (.ref dF))
    (pickOpt opts "sort" (.ref dS)) (pickOpt opts "limit" .null)
    (pickOpt opts "skip" (.num (.r 0)))

/-- new Query() with no options; the default construction never throws. -/
def newQuery (w : World) : World × ℕ :=
  match constructorOpts w [] with
  | (w', .ok i) => (w', i)
  | (w', .error _) => (w', 0)

/-- new Query(v) for an arbitrary value: lodash assign reads the own
entries of an object argument and contributes nothing for primitives. -/
def newQueryFromVal (w : World) (v : JVal) : World × Except String ℕ :=
  let pairs : List (String × JVal) :=
    match v with
    | .ref r => heapGet w.heap r
    | .obj kvs => kvs
    | _ => []
  constructorOpts w pairs

/-- new Query(p) for a canonical plain-object snapshot. -/
def newQueryFromPlain (w : World) (p : PlainQ) : World × Except String ℕ :=
  constructorOpts w
    [("fields", p.fields), ("filter", p.filter), ("sort", p.sort),
     ("skip", p.skip), ("limit", p.limit)]

namespace Query

/-- Query.addFilter: ensure the field maps to an object, then set the
condition inside that object, returning this for chaining.  The branch for
a filter slot that is not a heap reference is unreachable through the
public API and left as the identity. -/
def addFilter (w : World) (i : ℕ) (field condition : String) (values : JVal) :
    World × ℕ :=
  match (getQ w i).filterV with
  | .ref r =>
    let fobj := heapGet w.heap r
    let (h1, fobj1) :=
      match objGet fobj field with
      | .ref _ => (w.heap, fobj)
      | _ =>
        let (h', nid) := alloc w.heap []
        (h', objSet fobj field (.ref nid))
    let h2 := heapSet h1 r fobj1
    match objGet fobj1 field with
    | .ref t =>
      ({ w with heap := heapSet h2 t (objSet (heapGet h2 t) condition values) }, i)
    | _ => ({ w with heap := h2 }, i)
  | _ => (w, i)

/-- Query.equalTo. -/
def equalTo (w : World) (i : ℕ) (field : String) (value : JVal) : World × ℕ :=
  addFilter w i field "$eq" value

/-- Query.notEqualTo. -/
def notEqualTo (w : World) (i : ℕ) (field : String) (value : JVal) : World × ℕ :=
  addFilter w i field "$ne" value

/-- Query.contains: a non-array argument is wrapped into a one-element array. -/
def contains (w : World) (i : ℕ) (field : String) (values : JVal) : World × ℕ :=
  let values := if isArray values then values else .arr [values]
  addFilter w i field "$in" values

/-- Query.containsAll. -/
def containsAll (w : World) (i : ℕ) (field : String) (values : JVal) : World × ℕ :=
  let values := if isArray values then values else .arr [values]
  addFilter w i field "$all" values

/-- Query.notContainedIn. -/
def notContainedIn (w : World) (i : ℕ) (field : String) (values : JVal) : World × ℕ :=
  let values := if isArray values then values else .arr [values]
  addFilter w i field "$nin" values

/-- Query.greaterThan: the comparison operators require a number or a string. -/
def greaterThan (w : World) (i : ℕ) (field : String) (value : JVal) :
    World × Except String ℕ :=
  if ¬ isNumber value ∧ ¬ isString value then
    (w, .error "You must supply a number or string.")
  else
    let (w', j) := addFilter w i field "$gt" value
    (w', .ok j)

/-- Query.greaterThanOrEqualTo. -/
def greaterThanOrEqualTo (w : World) (i : ℕ) (field : String) (value : JVal) :
    World × Except String ℕ :=
  if ¬ isNumber value ∧ ¬ isString value then
    (w, .error "You must supply a number or string.")
  else
    let (w', j) := addFilter w i field "$gte" value
    (w', .ok j)

/-- Query.lessThan. -/
def lessThan (w : World) (i : ℕ) (field : String) (value : JVal) :
    World × Except String ℕ :=
  if ¬ isNumber value ∧ ¬ isString value then
    (w, .error "You must supply a number or string.")
  else
    let (w', j) := addFilter w i field "$lt" value
    (w', .ok j)

/-- Query.lessThanOrEqualTo. -/
def lessThanOrEqualTo (w : World) (i : ℕ) (field : String) (value : JVal) :
    World × Except String ℕ :=
  if ¬ isNumber value ∧ ¬ isString value then
    (w, .error "You must supply a number or string.")
  else
    let (w', j) := addFilter w i field "$lte" value
    (w', .ok j)

/-- Query.exists (named existsOp because exists is a Lean keyword): an
undefined flag defaults to true; a truthy flag is stored as given and any
other value becomes false. -/
def existsOp (w : World) (i : ℕ) (field : String) (flag : JVal) : World × ℕ :=
  let flag := match flag with
    | .undef => .bool true
    | v => if truthy v then v else .bool false
  addFilter w i field "$exists" flag

/-- Query.mod: strings are run through parseFloat; the checks use lodash
isNumber, which accepts NaN and infinities. -/
def mod (w : World) (i : ℕ) (field : String) (divisor : JVal)
    (remainder : JVal := .num (.r 0)) : World × Except String ℕ :=
  let divisor := if isString divisor then coerceNum divisor else divisor
  let remainder := if isString remainder then coerceNum remainder else remainder
  if ¬ isNumber divisor then (w, .error "divisor must be a number")
  else if ¬ isNumber remainder then (w, .error "remainder must be a number")
  else
    let (w', j) := addFilter w i field "$mod" (.arr [divisor, remainder])
    (w', .ok j)

/-- Model of a JavaScript RegExp as far as Query.matches reads it. -/
structure RegExpV where
  source : String
  ignoreCase : Bool
  multiline : Bool

/-- The regExp argument of Query.matches: a RegExp or a string. -/
inductive RegExpArg where
  | re (r : RegExpV)
  | s (str : String)

/-- new RegExp(string): the source is the string itself, except that the
empty string prints as an empty non-capturing group. -/
def toRegExp : RegExpArg → RegExpV
  | .re r => r
  | .s str => ⟨if str = "" then "(?:)" else str, false, false⟩

/-- Strict equality (the === and !== operator) on the modelled fragment:
NaN is unequal to everything including itself; objects and arrays compare
by reference identity, so heap references compare by identifier and inline
values (distinct allocations in JavaScript) are never strictly equal. -/
def jsStrictEq : JVal → JVal → Bool
  | .null, .null => true
  | .undef, .undef => true
  | .bool a, .bool b => a == b
  | .num a, .num b =>
    match a, b with
    | .nan, _ => false
    | _, .nan => false
    | x, y => x == y
  | .str a, .str b => a == b
  | .ref a, .ref b => a == b
  | _, _ => false

/-- True when the first character of the source is the caret, i.e. when
indexOf of the caret returns zero. -/
def startsWithCaret (s : String) : Bool :=
  match s.data with
  | '^' :: _ => true
  | _ => false

/-- Query.matches (named matchesQ because matches is a Lean keyword):
reject a case-insensitive request unless explicitly
overridden with an ignoreCase of exactly false, then require the source to
be anchored; on success store the source (anchor included) under $regex and
any collected flags under $options. -/
def matchesQ (w : World) (i : ℕ) (field : String) (regExp : RegExpArg)
    (options : Obj := []) : World × Except String ℕ :=
  let r := toRegExp regExp
  if (r.ignoreCase ∨ truthy (objGet options "ignoreCase")) ∧
      ¬ jsStrictEq (objGet options "ignoreCase") (.bool false) then
    (w, .error "ignoreCase glag is not supported.")
  else if ¬ startsWithCaret r.source then
    (w, .error "regExp must have `^` at the beginning of the expression to make it an anchored expression.")
  else
    let flags :=
      (if (r.multiline ∨ truthy (objGet options "multiline")) ∧
          ¬ jsStrictEq (objGet options "multiline") (.bool false) then ["m"] else []) ++
      (if truthy (objGet options "extended") then ["x"] else []) ++
      (if truthy (objGet options "dotMatchesAll") then ["s"] else [])
    let (w1, res) := addFilter w i field "$regex" (.str r.source)
    let w2 := if flags.isEmpty then w1 else (addFilter w1 i field "$options" (.str (String.join flags))).1
    (w2, .ok res)

/-- Array index read, as coord[0] and coord[1] in the source. -/
def arrIdx (v : JVal) (n : ℕ) : JVal :=
  match v with
  | .arr xs => xs.getD n .undef
  | _ => (.undef : JVal)

/-- Query.near: requires a coordinate pair of numbers, stores $nearSphere
and, when maxDistance is truthy, $maxDistance. -/
def near (w : World) (i : ℕ) (field : String) (coord : JVal)
    (maxDistance : JVal := .undef) : World × Except String ℕ :=
  if ¬ (isArray coord ∧ isNumber (arrIdx coord 0) ∧ isNumber (arrIdx coord 1)) then
    (w, .error "coord must be a [number, number]")
  else
    let (w1, res) := addFilter w i field "$nearSphere" (.arr [arrIdx coord 0, arrIdx coord 1])
    let w2 := if truthy maxDistance then (addFilter w1 i field "$maxDistance" maxDistance).1 else w1
    (w2, .ok res)

/-- parseFloat as applied to coordinate components, which may already be
numbers. -/
def parseFloatVal : JVal → JNum
  | .num n => n
  | .str s => parseFloat s
  | _ => .nan

/-- Query.withinBox: the presence checks use truthiness, so a zero
coordinate is rejected exactly as in the source. -/
def withinBox (w : World) (i : ℕ) (field : String)
    (bottomLeftCoord upperRightCoord : JVal) : World × Except String ℕ :=
  if ¬ (isArray bottomLeftCoord ∧ truthy (arrIdx bottomLeftCoord 0) ∧
        truthy (arrIdx bottomLeftCoord 1)) then
    (w, .error "bottomLeftCoord must be a [number, number]")
  else if ¬ (isArray upperRightCoord ∧ truthy (arrIdx upperRightCoord 0) ∧
        truthy (arrIdx upperRightCoord 1)) then
    (w, .error "upperRightCoord must be a [number, number]")
  else
    let coords : JVal := .arr
      [.arr [.num (parseFloatVal (arrIdx bottomLeftCoord 0)),
             .num (parseFloatVal (arrIdx bottomLeftCoord 1))],
       .arr [.num (parseFloatVal (arrIdx upperRightCoord 0)),
             .num (parseFloatVal (arrIdx upperRightCoord 1))]]
    let (h', bid) := alloc w.heap [("$box", coords)]
    let (w', j) := addFilter { w with heap := h' } i field "$within" (.ref bid)
    (w', .ok j)

/-- Mapping step of Query.withinPolygon: reject a pair with a falsy
component, otherwise parse both components. -/
def polyMap : List JVal → Except String (List JVal)
  | [] => .ok []
  | c :: rest =>
    if ¬ (truthy (arrIdx c 0) ∧ truthy (arrIdx c 1)) then
      .error "coords argument must be [number, number]"
    else
      match polyMap rest with
      | .error e => .error e
      | .ok tail =>
        .ok (.arr [.num (parseFloatVal (arrIdx c 0)), .num (parseFloatVal (arrIdx c 1))] :: tail)

/-- Query.withinPolygon: at most three points, each a truthy pair. -/
def withinPolygon (w : World) (i : ℕ) (field : String) (coords : JVal) :
    World × Except String ℕ :=
  match coords with
  | .arr cs =>
    if cs.length > 3 then (w, .error "coords must be [[number, number]]")
    else
      match polyMap cs with
      | .error e => (w, .error e)
      | .ok mapped =>
        let (h', pid) := alloc w.heap [("$polygon", .arr mapped)]
        let (w', j) := addFilter { w with heap := h' } i field "$within" (.ref pid)
        (w', .ok j)
  | _ => (w, .error "coords must be [[number, number]]")

/-- Query.size: numeric coercion as in mod. -/
def size (w : World) (i : ℕ) (field : String) (sz : JVal) :
    World × Except String ℕ :=
  let sz := if isString sz then coerceNum sz else sz
  if ¬ isNumber sz then (w, .error "size must be a number")
  else
    let (w', j) := addFilter w i field "$size" sz
    (w', .ok j)

/-- Assignment into the sort object, as this.sort updates do. -/
def sortAssign (w : World) (i : ℕ) (field : String) (v : JVal) : World :=
  match (getQ w i).sortV with
  | .ref r => { w with heap := heapSet w.heap r (objSet (heapGet w.heap r) field v) }
  | _ => w

/-- Query.ascending: delegates along the underscore-parent chain (never
populated in reachable worlds, hence the fuel) and then sets the sort
direction of the field to one; returns this. -/
def ascending : ℕ → World → ℕ → String → World × ℕ
  | 0, w, i, _ => (w, i)
  | fuel + 1, w, i, field =>
    match (getQ w i).parentRef with
    | some p =>
      let (w', _) := ascending fuel w p field
      (w', i)
    | none => (sortAssign w i field (.num (.r 1)), i)

/-- Query.descending: as ascending with direction minus one. -/
def descending : ℕ → World → ℕ → String → World × ℕ
  | 0, w, i, _ => (w, i)
  | fuel + 1, w, i, field =>
    match (getQ w i).parentRef with
    | some p =>
      let (w', _) := descending fuel w p field
      (w', i)
    | none => (sortAssign w i field (.num (.r (-1))), i)

/-- The fields setter as a world operation: validate, then store locally or
delegate to the underscore-parent (a proper setter assignment in the
source, modelled with fuel; the chain is never populated). -/
def setFields : ℕ → World → ℕ → JVal → World × Except String Unit
  | 0, w, _, _ => (w, .ok ())
  | fuel + 1, w, i, v =>
    match fieldsSetCore v with
    | .error e => (w, .error e)
    | .ok fv =>
      match (getQ w i).parentRef with
      | some p => setFields fuel w p v
      | none => (setQ w i { getQ w i with fieldsV := fv }, .ok ())

/-- The sort setter as a world operation.  When an underscore-parent is
set the source calls this. _parent.sort(sort), a call of a non-function
that would raise a TypeError; the branch is unreachable and modelled as
leaving the world unchanged. -/
def setSort (w : World) (i : ℕ) (v : JVal) : World × Except String Unit :=
  match sortSetCore w.heap v with
  | (h', .error e) => ({ w with heap := h' }, .error e)
  | (h', .ok sv) =>
    match (getQ w i).parentRef with
    | some _ => ({ w with heap := h' }, .ok ())
    | none => (setQ { w with heap := h' } i { getQ w i with sortV := sv }, .ok ())

/-- The limit setter as a world operation (delegation is a proper setter
assignment in the source, modelled with fuel). -/
def setLimit : ℕ → World → ℕ → JVal → World × Except String Unit
  | 0, w, _, _ => (w, .ok ())
  | fuel + 1, w, i, v =>
    match limitSetCore v with
    | .error e => (w, .error e)
    | .ok lv =>
      match (getQ w i).parentRef with
      | some p => setLimit fuel w p v
      | none => (setQ w i { getQ w i with limitV := lv }, .ok ())

/-- The skip setter as a world operation.  As with sort, the
underscore-parent branch calls this. _parent.skip(skip), a TypeError in
JavaScript; it is unreachable and modelled as the identity. -/
def setSkip (w : World) (i : ℕ) (v : JVal) : World × Except String Unit :=
  match skipSetCore v with
  | .error e => (w, .error e)
  | .ok kv =>
    match (getQ w i).parentRef with
    | some _ => (w, .ok ())
    | none => (setQ w i { getQ w i with skipV := kv }, .ok ())

/-- An argument of the boolean combinators: an existing Query instance or
a plain value. -/
inductive QArg where
  | q (i : ℕ)
  | v (x : JVal)

/-- The argument normalisation loop of Query.join: a Query contributes the
filter of its plain-object form; an object is wrapped into a fresh Query
first; anything else is rejected. -/
def joinMapArgs : World → List QArg → World × Except String (List JVal)
  | w, [] => (w, .ok [])
  | w, .q j :: rest =>
    let fv := (toPlainObject w j).filter
    (match joinMapArgs w rest with
     | (w', .error e) => (w', .error e)
     | (w', .ok fs) => (w', .ok (fv :: fs)))
  | w, .v x :: rest =>
    if isObject x then
      match newQueryFromVal w x with
      | (w', .error e) => (w', .error e)
      | (w', .ok nj) =>
        let fv := (toPlainObject w' nj).filter
        (match joinMapArgs w' rest with
         | (w'', .error e) => (w'', .error e)
         | (w'', .ok fs) => (w'', .ok (fv :: fs)))
    else
      (w, .error "query argument must be of type: Kinvey.Query[] or Object[].")

/-- Query.join: normalise the arguments; with no arguments open a scope by
creating a fresh empty Query whose plain parent property (not the
underscore-parent the combinators read) is set to this, and use its filter
as the sole right-hand operand; then move the current top-level filter
entries into a fresh left-hand object, emptying this.filter in place so
that references into it stay valid, and install operator mapsto
left-hand followed by the operand filters.  Returns the scope child when
one was created, otherwise this. -/
def join (w : World) (i : ℕ) (operator : String) (queries : List QArg) :
    World × Except String ℕ :=
  match joinMapArgs w queries with
  | (w1, .error e) => (w1, .error e)
  | (w1, .ok fs) =>
    let (w2, fs2, retId) :=
      if fs.isEmpty then
        let (w', nid) := newQuery w1
        let fv := (toPlainObject w' nid).filter
        let w'' := setQ w' nid { getQ w' nid with parentProp := some i }
        (w'', [fv], nid)
      else (w1, fs, i)
    match (getQ w2 i).filterV with
    | .ref r =>
      let cur := heapGet w2.heap r
      let (h1, cid) := alloc w2.heap cur
      let h2 := heapSet h1 r [(operator, .arr (.ref cid :: fs2))]
      ({ w2 with heap := h2 }, .ok retId)
    | _ => (w2, .ok retId)

/-- Query.and: AND always combines onto this query, even inside a join. -/
def and (w : World) (i : ℕ) (args : List QArg) : World × Except String ℕ :=
  join w i "$and" args

/-- Property read through a value, as the lodash property iteratee does:
only objects yield properties, everything else reads as undefined. -/
def propGet (h : Heap) (v : JVal) (k : String) : JVal :=
  match v with
  | .ref r => objGet (heapGet h r) k
  | .obj kvs => objGet kvs k
  | _ => (.undef : JVal)

/-- Query.nor: when part of an AND join (underscore-parent set and its
filter has a truthy $and entry) redirect to the parent; fuel bounds the
walk, which never happens in reachable worlds. -/
def nor : ℕ → World → ℕ → List QArg → World × Except String ℕ
  | 0, w, i, args => join w i "$nor" args
  | fuel + 1, w, i, args =>
    match (getQ w i).parentRef with
    | some p =>
      if truthy (propGet w.heap (getQ w p).filterV "$and") then
        nor fuel w p args
      else join w i "$nor" args
    | none => join w i "$nor" args

/-- Query.or: when part of any join (underscore-parent set) redirect to
the parent; fuel as in nor. -/
def or : ℕ → World → ℕ → List QArg → World × Except String ℕ
  | 0, w, i, args => join w i "$or" args
  | fuel + 1, w, i, args =>
    match (getQ w i).parentRef with
    | some p => or fuel w p args
    | none => join w i "$or" args

/-- The list of operators the offline evaluator cannot run. -/
def unsupportedFilters : List String := ["$nearSphere"]

/-- lodash findKey with a property-path iteratee: the key of the first
entry whose value carries a truthy property of the given name. -/
def findKey (h : Heap) (o : Obj) (k : String) : Option String :=
  (o.find? (fun kv => truthy (propGet h kv.2 k))).map Prod.fst

/-- The forEach loop of isSupportedOffline: recompute supported for each
unsupported operator, breaking as soon as it becomes false (the result of
findKey, a key string or undefined, is negated by truthiness, so an entry
found under an empty-string key would not count). -/
def isoLoop (h : Heap) (o : Obj) : List String → Bool → Bool
  | [], s => s
  | f :: rest, _ =>
    let s := ! truthy (match findKey h o f with
      | some k => .str k
      | none => .undef)
    if s then isoLoop h o rest s else false

/-- Query.isSupportedOffline: inspects only the top-level keys of
this.filter (through the plain getter, without parent delegation). -/
def isSupportedOffline (w : World) (i : ℕ) : Bool :=
  let fobj := match (getQ w i).filterV with
    | .ref r => heapGet w.heap r
    | .obj kvs => kvs
    | _ => []
  isoLoop w.heap fobj unsupportedFilters true

/-- Modelled from the spec: the nested helper from ./utils (not under
src/) looks a sort field up in a record; the spec sort stage reads the
value of a record at a field name, with records being field-name to value
mappings.  Dotted paths are outside the fragment exercised here. -/
def nested (v : JVal) (field : String) : JVal :=
  match v with
  | .obj kvs => objGet kvs field
  | _ => (.undef : JVal)

/-- The less-than operator on the fragment the sort comparator meets:
numeric order on numbers (false on NaN), lexicographic order on strings;
mixed-type comparisons coerce in JavaScript and are outside the modelled
fragment. -/
def jsLt : JVal → JVal → Bool
  | .num a, .num b =>
    match a, b with
    | .nan, _ => false
    | _, .nan => false
    | .r x, .r y => decide (x < y)
    | .ninf, .ninf => false
    | .ninf, _ => true
    | _, .ninf => false
    | .inf, _ => false
    | .r _, .inf => true
  | .str a, .str b => decide (a < b)
  | _, _ => false

/-- Numeric content of a sort modifier (one or minus one in reachable
sort objects). -/
def modifierVal : JVal → ℚ
  | .num (.r q) => q
  | _ => 0

/-- The per-field body of the sort comparator in Query.process: records
lacking the field (by truthiness) sort lower, strictly different values
compare through less-than times the modifier, equal values yield zero. -/
def sortFieldCompare (sortObj : Obj) (a b : JVal) (field : String) : ℚ :=
  let aField := nested a field
  let bField := nested b field
  if truthy aField ∧ ¬ truthy bField then -1
  else if truthy bField ∧ ¬ truthy aField then 1
  else if ¬ jsStrictEq aField bField then
    (if jsLt aField bField then -1 else 1) * modifierVal (objGet sortObj field)
  else 0

/-- The comparator Query.process hands to Array.prototype.sort: a lodash
forEach computes sortFieldCompare for each sort field, but a number
returned from a forEach iteratee never equals the boolean false that stops
the loop, every per-field result is discarded, and the outer function
falls through to return zero for every pair of records. -/
def processComparator (sortObj : Obj) (a b : JVal) : ℚ :=
  let fields := sortObj.map Prod.fst
  let _ := fields.map (sortFieldCompare sortObj a b)
  0

/-- Stable insertion used to model Array.prototype.sort (stable per the
ECMAScript specification): the inserted element originally precedes every
element of the sorted list, so it moves right only past elements it
compares strictly above. -/
def insertCmp (cmp : JVal → JVal → ℚ) (a : JVal) : List JVal → List JVal
  | [] => [a]
  | b :: bs => if 0 < cmp a b then b :: insertCmp cmp a bs else a :: b :: bs

/-- Stable sort modelling Array.prototype.sort with a comparator. -/
def jsSortStable (cmp : JVal → JVal → ℚ) : List JVal → List JVal
  | [] => []
  | a :: rest => insertCmp cmp a (jsSortStable cmp rest)

/-- Truncation toward zero, as ToIntegerOrInfinity does on finite numbers
(integer division of the numerator by the denominator truncates toward
zero). -/
def truncQ (q : ℚ) : ℤ :=
  q.num.tdiv q.den

/-- Clamp a slice argument to an index, per Array.prototype.slice: NaN
becomes zero, negative values count from the end, everything is clamped
into the array bounds. -/
def toSliceIdx (len : ℕ) (v : JNum) : ℕ :=
  match v with
  | .nan => 0
  | .inf => len
  | .ninf => 0
  | .r q =>
    let k := truncQ q
    if k < 0 then ((len : ℤ) + k).toNat else Min.min k.toNat len

/-- Array.prototype.slice with optional end argument. -/
def jsSlice (xs : List JVal) (st : JNum) (en : Option JNum) : List JVal :=
  let s := toSliceIdx xs.length st
  let e := match en with
    | none => xs.length
    | some v => toSliceIdx xs.length v
  (xs.take e).drop s

/-- Numeric reading of a skip or limit slot (always a number in reachable
worlds; other values coerce in JavaScript and default to zero here). -/
def numOfVal : JVal → JNum
  | .num n => n
  | _ => .r 0

/-- JavaScript addition on numbers, for skip plus limit. -/
def jnAdd : JNum → JNum → JNum
  | .nan, _ => .nan
  | _, .nan => .nan
  | .inf, .ninf => .nan
  | .ninf, .inf => .nan
  | .inf, _ => .inf
  | _, .inf => .inf
  | .ninf, _ => .ninf
  | _, .ninf => .ninf
  | .r a, .r b => .r (a + b)

/-- Field projection step of Query.process: delete every key of a record
that the fields array does not contain (indexOf uses strict equality). -/
def projectRecord (fieldsList : List JVal) (item : JVal) : JVal :=
  match item with
  | .obj kvs => .obj (kvs.filter (fun kv => fieldsList.any (fun f => jsStrictEq f (.str kv.1))))
  | v => v

/-- Query.process: refuse queries that are not supported offline, return
falsy data (null or undefined) unchanged, reject truthy non-arrays, and
otherwise filter with the external predicate matcher (sift, passed as a
parameter since the spec treats document matching as an external
capability), project, sort with the constant-zero comparator, and slice by
skip and limit. -/
def process (w : World) (i : ℕ) (sift : Heap → JVal → JVal → Bool)
    (data : JVal) : Except String JVal :=
  if isSupportedOffline w i = false then
    .error (unsupportedFilters.foldl (fun m f => m ++ " " ++ f)
      "This query is not able to run locally. The following filters are not supported locally:")
  else if truthy data then
    if ¬ isArray data then .error "data argument must be of type: Array."
    else
      let json := toPlainObject w i
      let xs := match data with
        | .arr xs => xs
        | _ => []
      let xs := xs.filter (sift w.heap json.filter)
      let fieldsList := match json.fields with
        | .arr fs => fs
        | _ => []
      let xs := if truthy json.fields ∧ fieldsList.length > 0 then
          xs.map (projectRecord fieldsList)
        else xs
      let sortObj := match json.sort with
        | .ref r => heapGet w.heap r
        | .obj kvs => kvs
        | _ => []
      let xs := jsSortStable (processComparator sortObj) xs
      let out := if truthy json.limit then
          jsSlice xs (numOfVal json.skip)
            (some (jnAdd (numOfVal json.skip) (numOfVal json.limit)))
        else
          jsSlice xs (numOfVal json.skip) none
      .ok (.arr out)
  else .ok data

end Query

/-- A fully dereferenced filter tree, used to state what a heap-resident
filter denotes; cut marks fuel exhaustion and never appears for the
concrete worlds of the theorems below. -/
inductive FTree where
  | null
  | undef
  | bool (b : Bool)
  | num (n : JNum)
  | str (s : String)
  | arr (xs : List FTree)
  | obj (kvs : List (String × FTree))
  | cut

/-- Top-level keys of a resolved filter tree. -/
def FTree.topKeys : FTree → List String
  | .obj kvs => kvs.map Prod.fst
  | _ => []

/-- Dereference a value against the heap up to the given depth; fuel is
consumed at every level, so any tree of depth below the fuel resolves
without reaching cut. -/
def resolveV (h : Heap) : ℕ → JVal → FTree
  | 0, _ => .cut
  | fuel + 1, v =>
    match v with
    | .null => .null
    | .undef => .undef
    | .bool b => .bool b
    | .num n => .num n
    | .str s => .str s
    | .arr xs => .arr (xs.map (resolveV h fuel))
    | .obj kvs => .obj (kvs.map (fun kv => (kv.1, resolveV h fuel kv.2)))
    | .ref r => .obj ((heapGet h r).map (fun kv => (kv.1, resolveV h fuel kv.2)))

/-- The public mutating operations of the Query class, used to quantify
over arbitrary call sequences. -/
inductive Op where
  | equalTo (field : String) (value : JVal)
  | notEqualTo (field : String) (value : JVal)
  | contains (field : String) (values : JVal)
  | containsAll (field : String) (values : JVal)
  | notContainedIn (field : String) (values : JVal)
  | greaterThan (field : String) (value : JVal)
  | greaterThanOrEqualTo (field : String) (value : JVal)
  | lessThan (field : String) (value : JVal)
  | lessThanOrEqualTo (field : String) (value : JVal)
  | existsOp (field : String) (flag : JVal)
  | modOp (field : String) (divisor remainder : JVal)
  | matchesOp (field : String) (regExp : Query.RegExpArg) (options : Obj)
  | nearOp (field : String) (coord maxDistance : JVal)
  | withinBoxOp (field : String) (bottomLeftCoord upperRightCoord : JVal)
  | withinPolygonOp (field : String) (coords : JVal)
  | sizeOp (field : String) (sz : JVal)
  | ascending (field : String)
  | descending (field : String)
  | addFilter (field condition : String) (values : JVal)
  | andOp (args : List Query.QArg)
  | norOp (args : List Query.QArg)
  | orOp (args : List Query.QArg)
  | setFields (v : JVal)
  | setSort (v : JVal)
  | setLimit (v : JVal)
  | setSkip (v : JVal)

/-- Apply one public operation to the query with index t, keeping the
world that results whether or not the operation reported an error (a
thrown QueryError leaves all objects as they were at the throw). -/
def stepOp (w : World) (t : ℕ) : Op → World
  | .equalTo f v => (Query.equalTo w t f v).1
  | .notEqualTo f v => (Query.notEqualTo w t f v).1
  | .contains f v => (Query.contains w t f v).1
  | .containsAll f v => (Query.containsAll w t f v).1
  | .notContainedIn f v => (Query.notContainedIn w t f v).1
  | .greaterThan f v => (Query.greaterThan w t f v).1
  | .greaterThanOrEqualTo f v => (Query.greaterThanOrEqualTo w t f v).1
  | .lessThan f v => (Query.lessThan w t f v).1
  | .lessThanOrEqualTo f v => (Query.lessThanOrEqualTo w t f v).1
  | .existsOp f v => (Query.existsOp w t f v).1
  | .modOp f d r => (Query.mod w t f d r).1
  | .matchesOp f re o => (Query.matchesQ w t f re o).1
  | .nearOp f c m => (Query.near w t f c m).1
  | .withinBoxOp f bl ur => (Query.withinBox w t f bl ur).1
  | .withinPolygonOp f cs => (Query.withinPolygon w t f cs).1
  | .sizeOp f s => (Query.size w t f s).1
  | .ascending f => (Query.ascending (w.qs.length + 1) w t f).1
  | .descending f => (Query.descending (w.qs.length + 1) w t f).1
  | .addFilter f c v => (Query.addFilter w t f c v).1
  | .andOp args => (Query.and w t args).1
  | .norOp args => (Query.nor (w.qs.length + 1) w t args).1
  | .orOp args => (Query.or (w.qs.length + 1) w t args).1
  | .setFields v => (Query.setFields (w.qs.length + 1) w t v).1
  | .setSort v => (Query.setSort w t v).1
  | .setLimit v => (Query.setLimit (w.qs.length + 1) w t v).1
  | .setSkip v => (Query.setSkip w t v).1

/-- Run a sequence of public operations, each aimed at some query. -/
def run (w : World) : List (ℕ × Op) → World
  | [] => w
  | (t, op) :: rest => run (stepOp w t op) rest


/-! Concrete worlds used by the theorems below. -/

/-- The empty world: no objects, no queries. -/
def emptyWorld : World := ⟨[], []⟩

/-- A world holding one freshly constructed Query (index 0). -/
def freshW : World := (newQuery emptyWorld).1

/-- The chain equalTo("a", 1), and(q2), or(q3) applied to query 0, with
q2 (index 1) holding b equal 2 and q3 (index 2) holding c equal 3. -/
def c1posW : World :=
  let w := freshW
  let w := (Query.equalTo w 0 "a" (.num (.r 1))).1
  let w := (newQuery w).1
  let w := (Query.equalTo w 1 "b" (.num (.r 2))).1
  let w := (Query.and w 0 [.q 1]).1
  let w := (newQuery w).1
  let w := (Query.equalTo w 2 "c" (.num (.r 3))).1
  (Query.or 4 w 0 [.q 2]).1

/-- The chain equalTo("a", 1), and() opening a scope child (index 1),
equalTo("b", 2) on the child, then or(q3) issued on the child, with q3
(index 2) holding c equal 3. -/
def c1scopeW : World :=
  let w := freshW
  let w := (Query.equalTo w 0 "a" (.num (.r 1))).1
  let w := (Query.and w 0 []).1
  let w := (Query.equalTo w 1 "b" (.num (.r 2))).1
  let w := (newQuery w).1
  let w := (Query.equalTo w 2 "c" (.num (.r 3))).1
  (Query.or 4 w 1 [.q 2]).1

/-- A scope-open or() on a fresh query followed by an assignment of five
to the skip of the returned scope child (index 1). -/
def c2W : World :=
  let w := (Query.or 4 freshW 0 []).1
  (Query.setSkip w 1 (.num (.r 5))).1

/-- Query.near("loc", [1, 2]) on a fresh query. -/
def c5nearW : World :=
  (Query.near freshW 0 "loc" (.arr [.num (.r 1), .num (.r 2)])).1

/-- A fresh query joined by or() with a second query carrying the same
near filter, so the $nearSphere only occurs inside the $or subtree. -/
def c5nestedW : World :=
  let w := (newQuery freshW).1
  let w := (Query.near w 1 "loc" (.arr [.num (.r 1), .num (.r 2)])).1
  (Query.or 4 w 0 [.q 1]).1

/-- addFilter("x", "$nearSphere", 0) on a fresh query: the field uses the
$nearSphere operator but with a falsy value. -/
def c5falsyW : World :=
  (Query.addFilter freshW 0 "x" "$nearSphere" (.num (.r 0))).1

/-- matches("name", anchored regular expression with source ^foo). -/
def c6okW : World :=
  (Query.matchesQ freshW 0 "name" (.re ⟨"^foo", false, false⟩)).1

/-- mod("x", "5") on a fresh query. -/
def c7okW : World := (Query.mod freshW 0 "x" (.str "5")).1

/-- mod("x", "abc") on a fresh query. -/
def c7nanW : World := (Query.mod freshW 0 "x" (.str "abc")).1

/-- A fresh query with an ascending sort on field a. -/
def c4W : World := (Query.ascending 3 freshW 0 "a").1

/-- Record with a equal 2. -/
def recA2 : JVal := .obj [("a", .num (.r 2))]

/-- Record with a equal 1. -/
def recA1 : JVal := .obj [("a", .num (.r 1))]

/-- The record sequence holding a equal 2 before a equal 1. -/
def c4data : JVal := .arr [recA2, recA1]

/-- The sort object mapping a to the ascending direction. -/
def c4sort : Obj := [("a", .num (.r 1))]

/-- A fresh query with the filter a equal 1, used for the round trip. -/
def c3exW : World := (Query.equalTo freshW 0 "a" (.num (.r 1))).1

/-! Claim theorems. -/

/-- C1: the chain equalTo("a", 1), and(q2), or(q3) on an unscoped criteria
does produce the $or of the $and with the two operand filters; but the
precedence rule fails in general: when the same combination is built
through a scope child (and() with no arguments, then or() on the child),
the $or is joined onto the child filter and ends up nested inside the
$and of the owner, because Query.join stores the owner in the plain
parent property while or()/nor() read the never-assigned underscore
parent.  The claimed OR-outermost shape therefore does not hold for every
call order. -/
theorem spec_c1 :
    resolveV c1posW.heap 12 (getQ c1posW 0).filterV =
      .obj [("$or", .arr [
        .obj [("$and", .arr [
          .obj [("a", .obj [("$eq", .num (.r 1))])],
          .obj [("b", .obj [("$eq", .num (.r 2))])]])],
        .obj [("c", .obj [("$eq", .num (.r 3))])]])] ∧
    (getQ c1scopeW 1).parentRef = none ∧
    resolveV c1scopeW.heap 12 (getQ c1scopeW 0).filterV =
      .obj [("$and", .arr [
        .obj [("a", .obj [("$eq", .num (.r 1))])],
        .obj [("$or", .arr [
          .obj [("b", .obj [("$eq", .num (.r 2))])],
          .obj [("c", .obj [("$eq", .num (.r 3))])]])]])] ∧
    (resolveV c1scopeW.heap 12 (getQ c1scopeW 0).filterV).topKeys = ["$and"] :=
  ⟨rfl, rfl, rfl, rfl⟩

/-- C2: a join call with no arguments does create a fresh empty criteria
and return it (or() on query 0 returns the new index 1), but the new
instance is not scoped to its creator: its underscore parent is null
(join assigns the plain parent property instead), so a subsequent skip
assignment on the returned instance stores the value locally and the
owner keeps skip 0 -- the claimed delegation to an authoritative owner
does not happen. -/
theorem spec_c2 :
    (Query.or 4 freshW 0 []).2 = .ok 1 ∧
    (getQ c2W 1).parentRef = none ∧
    (getQ c2W 1).parentProp = some 0 ∧
    (getQ c2W 0).skipV = .num (.r 0) ∧
    (getQ c2W 1).skipV = .num (.r 5) :=
  ⟨rfl, rfl, rfl, rfl, rfl⟩

/-- C4: the per-field comparison body inside the sort stage does compute
the claimed value (for records a=2 and a=1 under ascending a it yields 1,
so a=1 should come first), but the enclosing comparator discards every
per-field result and returns zero for all pairs, so process leaves the
records in their incoming order and the claimed sort semantics never
reaches Array.prototype.sort. -/
theorem spec_c4 :
    Query.sortFieldCompare c4sort recA2 recA1 "a" = 1 ∧
    Query.processComparator c4sort recA2 recA1 = 0 ∧
    Query.process c4W 0 (fun _ _ _ => true) c4data = .ok c4data :=
  ⟨by norm_num [Query.sortFieldCompare, Query.nested, objGet, Query.jsStrictEq,
      Query.jsLt, Query.modifierVal, truthy, c4sort, recA2, recA1],
   rfl, rfl⟩

/-- C10: process returns a null or undefined record sequence unchanged
(after the offline-support gate), and its array type error occurs only
for truthy non-array inputs. -/
theorem spec_c10 :
    (∀ (w : World) (i : ℕ) (m : Heap → JVal → JVal → Bool),
      Query.isSupportedOffline w i = true →
        Query.process w i m .null = .ok .null ∧
        Query.process w i m .undef = .ok .undef) ∧
    (∀ (w : World) (i : ℕ) (m : Heap → JVal → JVal → Bool) (data : JVal),
      Query.process w i m data = .error "data argument must be of type: Array." →
        truthy data = true ∧ isArray data = false) := by
  constructor
  · intro w i m h
    constructor <;>
      (unfold Query.process; rw [if_neg (by simp [h])]; rfl)
  · intro w i m data h
    unfold Query.process at h
    by_cases hs : Query.isSupportedOffline w i = false
    · rw [if_pos hs] at h
      exact absurd (Except.error.inj h) (by decide)
    · rw [if_neg hs] at h
      by_cases ht : truthy data = true
      · rw [if_pos ht] at h
        by_cases ha : isArray data = true
        · rw [if_neg (by simp [ha])] at h
          exact Except.noConfusion h
        · exact ⟨ht, by simpa using ha⟩
      · rw [if_neg ht] at h
        exact Except.noConfusion h

/-- C10 witness at a concrete supported query and inputs. -/
theorem spec_c10_witness :
    (Query.process c4W 0 (fun _ _ _ => true) .null = .ok .null ∧
      Query.process c4W 0 (fun _ _ _ => true) .undef = .ok .undef) ∧
    (truthy (.num (.r 7)) = true ∧ isArray (.num (.r 7)) = false) :=
  ⟨spec_c10.1 c4W 0 (fun _ _ _ => true) rfl,
   spec_c10.2 c4W 0 (fun _ _ _ => true) (.num (.r 7)) rfl⟩

/-! Helper lemmas for list reads. -/

/-- Reading inside the left part of an appended list. -/
theorem getD_append_left {α : Type} (l l' : List α) (i : ℕ) (d : α)
    (h : i < l.length) : (l ++ l').getD i d = l.getD i d := by
  induction l generalizing i with
  | nil => cases h
  | cons a t ih =>
    cases i with
    | zero => rfl
    | succ n => exact ih n (Nat.lt_of_succ_lt_succ h)

/-- Reading the appended element. -/
theorem getD_append_length {α : Type} (l : List α) (a d : α) :
    (l ++ [a]).getD l.length d = a := by
  induction l with
  | nil => rfl
  | cons b t ih => exact ih

/-- A default read is either a member or the default. -/
theorem getD_mem_or_eq {α : Type} (l : List α) (i : ℕ) (d : α) :
    l.getD i d ∈ l ∨ l.getD i d = d := by
  induction l generalizing i with
  | nil => right; rfl
  | cons a t ih =>
    cases i with
    | zero => left; exact List.mem_cons_self a t
    | succ n =>
      rcases ih n with hm | he
      · left; exact List.mem_cons_of_mem a hm
      · right; exact he

/-- When no query of the world carries an underscore-parent, the root of
any index is the index itself. -/
theorem resolveRoot_id (w : World) (fuel i : ℕ)
    (hnp : ∀ q ∈ w.qs, q.parentRef = none) :
    resolveRoot w (fuel + 1) i = i := by
  have hq : (getQ w i).parentRef = none := by
    rcases getD_mem_or_eq w.qs i default with hm | he
    · exact hnp _ hm
    · unfold getQ; rw [he]; rfl
  unfold resolveRoot
  rw [hq]

/-! Setter core computations on valid snapshot components. -/

/-- The fields setter accepts any array unchanged. -/
theorem fieldsSetCore_arr (xs : List JVal) :
    fieldsSetCore (.arr xs) = .ok (.arr xs) := rfl

/-- The sort setter stores any object argument unchanged. -/
theorem sortSetCore_obj (h : Heap) (v : JVal) (hv : isObject v = true) :
    sortSetCore h v = (h, .ok v) := by
  cases v <;> simp_all [sortSetCore, isObject, truthy]

/-- The limit setter stores a non-string value unchanged when the value
is a number whenever it is truthy. -/
theorem limitSetCore_pass (v : JVal) (h1 : isString v = false)
    (h2 : truthy v = true → isNumber v = true) :
    limitSetCore v = .ok v := by
  cases v with
  | bool b => cases b <;> simp_all [limitSetCore, isString, truthy, isNumber, coerceNum]
  | _ => simp_all [limitSetCore, isString, truthy, isNumber, coerceNum]

/-- The skip setter stores a non-string number unchanged. -/
theorem skipSetCore_pass (v : JVal) (h1 : isString v = false)
    (h2 : isNumber v = true) :
    skipSetCore v = .ok v := by
  cases v <;> simp_all [skipSetCore, isString, isNumber, coerceNum]

/-- Construction from a canonical snapshot with valid components: the two
default objects are allocated and a query carrying exactly the snapshot
components is appended. -/
theorem newQueryFromPlain_ok (w : World) (p : PlainQ)
    (hf : isArray p.fields = true)
    (hs : isObject p.sort = true)
    (hlS : isString p.limit = false)
    (hlN : truthy p.limit = true → isNumber p.limit = true)
    (hkS : isString p.skip = false)
    (hkN : isNumber p.skip = true) :
    newQueryFromPlain w p =
      ({ heap := w.heap ++ [[], []],
         qs := w.qs ++ [⟨p.fields, p.filter, p.sort, p.limit, p.skip, none, none⟩] },
       .ok w.qs.length) := by
  obtain ⟨xs, hxs⟩ : ∃ xs, p.fields = .arr xs := by
    cases hpf : p.fields <;> simp_all [isArray]
  have hstep : newQueryFromPlain w p =
      constructorCore w ((w.heap ++ [[]]) ++ [[]]) p.fields p.filter p.sort p.limit p.skip := rfl
  rw [hstep]
  simp only [constructorCore, hxs, fieldsSetCore_arr, sortSetCore_obj _ _ hs,
    limitSetCore_pass _ hlS hlN, skipSetCore_pass _ hkS hkN, List.append_assoc]
  rfl

/-- In a world without underscore-parents, toPlainObject reads the
components of the query itself. -/
theorem toPlain_of_parentRefNone (w : World) (i : ℕ)
    (h : ∀ q ∈ w.qs, q.parentRef = none) :
    toPlainObject w i =
      ⟨(getQ w i).fieldsV, (getQ w i).filterV, (getQ w i).sortV,
       (getQ w i).skipV, (getQ w i).limitV⟩ := by
  unfold toPlainObject
  rw [resolveRoot_id w _ i h]

/-- Appending a copy of the snapshot of query i to a world (with any
heap, which toPlainObject never reads) leaves the snapshots of the new
query and of query i equal, and the snapshot of query i unchanged. -/
theorem toPlain_extend (w : World) (i : ℕ) (hh : Heap) (R : QRec)
    (hnp : ∀ q ∈ w.qs, q.parentRef = none)
    (hcomp : R = ⟨(toPlainObject w i).fields, (toPlainObject w i).filter,
      (toPlainObject w i).sort, (toPlainObject w i).limit,
      (toPlainObject w i).skip, none, none⟩) :
    toPlainObject ⟨hh, w.qs ++ [R]⟩ w.qs.length = toPlainObject ⟨hh, w.qs ++ [R]⟩ i ∧
    toPlainObject ⟨hh, w.qs ++ [R]⟩ i = toPlainObject w i := by
  have hnp' : ∀ q ∈ (⟨hh, w.qs ++ [R]⟩ : World).qs, q.parentRef = none := by
    intro q hq
    rcases List.mem_append.1 hq with hq | hq
    · exact hnp q hq
    · rcases List.mem_singleton.1 hq with rfl
      rw [hcomp]
  have e0 := toPlain_of_parentRefNone w i hnp
  have e1 := toPlain_of_parentRefNone ⟨hh, w.qs ++ [R]⟩ w.qs.length hnp'
  have e2 := toPlain_of_parentRefNone ⟨hh, w.qs ++ [R]⟩ i hnp'
  have hN : getQ ⟨hh, w.qs ++ [R]⟩ w.qs.length = R := by
    unfold getQ
    exact getD_append_length w.qs R default
  have hO : getQ ⟨hh, w.qs ++ [R]⟩ i = getQ w i := by
    rcases Nat.lt_trichotomy i w.qs.length with hk | hk | hk
    · unfold getQ
      exact getD_append_left w.qs [R] i default hk
    · rw [hk] at e0 hcomp ⊢
      rw [hN]
      have hdef : getQ w w.qs.length = default := by
        unfold getQ
        exact List.getD_eq_default _ _ (Nat.le_refl _)
      rw [hdef]
      rw [hdef] at e0
      rw [hcomp, e0]
      rfl
    · have h1 : getQ (⟨hh, w.qs ++ [R]⟩ : World) i = default := by
        unfold getQ
        apply List.getD_eq_default
        simp only [List.length_append, List.length_cons, List.length_nil]
        omega
      have h2 : getQ w i = default := by
        unfold getQ
        exact List.getD_eq_default _ _ (Nat.le_of_lt hk)
      rw [h1, h2]
  constructor
  · rw [e1, e2, hN, hO, hcomp, ← e0]
  · rw [e2, hO, ← e0]

/-- C3: reconstructing a Criteria from the toPlainObject snapshot of any
query (in a world whose queries carry no underscore-parent, as in all
reachable worlds) succeeds and yields a query whose toPlainObject
snapshot -- fields, filter, sort, skip and limit -- is the same as that
of the original query, evaluated in the extended world; the heap is only
extended, so the shared filter and sort references keep their content. -/
theorem spec_c3 (w : World) (i : ℕ)
    (hnp : ∀ q ∈ w.qs, q.parentRef = none)
    (hf : isArray (toPlainObject w i).fields = true)
    (hs : isObject (toPlainObject w i).sort = true)
    (hlS : isString (toPlainObject w i).limit = false)
    (hlN : truthy (toPlainObject w i).limit = true →
      isNumber (toPlainObject w i).limit = true)
    (hkS : isString (toPlainObject w i).skip = false)
    (hkN : isNumber (toPlainObject w i).skip = true) :
    ∃ w' j, newQueryFromPlain w (toPlainObject w i) = (w', .ok j) ∧
      toPlainObject w' j = toPlainObject w' i ∧
      toPlainObject w' i = toPlainObject w i ∧
      (∃ t, w'.heap = w.heap ++ t) := by
  have hctor := newQueryFromPlain_ok w (toPlainObject w i) hf hs hlS hlN hkS hkN
  refine ⟨_, w.qs.length, hctor, ?_, ?_, ⟨[[], []], rfl⟩⟩
  · exact (toPlain_extend w i (w.heap ++ [[], []]) _ hnp rfl).1
  · exact (toPlain_extend w i (w.heap ++ [[], []]) _ hnp rfl).2

/-- C3 witness: the round trip on a concrete one-query world with the
filter a equal 1. -/
theorem spec_c3_witness :
    ∃ w' j, newQueryFromPlain c3exW (toPlainObject c3exW 0) = (w', .ok j) ∧
      toPlainObject w' j = toPlainObject w' 0 ∧
      toPlainObject w' 0 = toPlainObject c3exW 0 ∧
      (∃ t, w'.heap = c3exW.heap ++ t) := by
  refine spec_c3 c3exW 0 ?_ rfl rfl rfl (fun h => by cases h) rfl rfl
  intro q hq
  have hqs : c3exW.qs = [⟨.arr [], .ref 0, .ref 1, .null, .num (.r 0), none, none⟩] := rfl
  rw [hqs] at hq
  rcases List.mem_singleton.1 hq with rfl
  rfl

/-- C5 counterexample: a top-level field whose operator-mapping uses
$nearSphere with a falsy value (settable through the public addFilter
primitive) is not detected: isSupportedOffline returns true although the
claim requires false whenever a top-level field uses $nearSphere. -/
theorem spec_c5_counterexample :
    Query.isSupportedOffline c5falsyW 0 = true ∧
    (getQ c5falsyW 0).filterV = .ref 0 ∧
    objGet (heapGet c5falsyW.heap 0) "x" = .ref 2 ∧
    "$nearSphere" ∈ (heapGet c5falsyW.heap 2).map Prod.fst :=
  ⟨rfl, rfl, rfl, by decide⟩

/-- On a heap-resident filter, isSupportedOffline is the negated
truthiness of the findKey result for $nearSphere. -/
theorem isSupportedOffline_ref (w : World) (i r : ℕ)
    (href : (getQ w i).filterV = .ref r) :
    Query.isSupportedOffline w i =
      ! truthy (match Query.findKey w.heap (heapGet w.heap r) "$nearSphere" with
        | some k => JVal.str k
        | none => JVal.undef) := by
  unfold Query.isSupportedOffline
  rw [href]
  show Query.isoLoop _ _ ["$nearSphere"] true = _
  unfold Query.isoLoop
  rcases hs : (! truthy (match Query.findKey w.heap (heapGet w.heap r) "$nearSphere" with
      | some k => JVal.str k
      | none => JVal.undef)) with _ | _ <;>
    simp [hs, Query.isoLoop]

/-- C5 amended: isSupportedOffline returns false exactly when some
top-level field (with a nonempty name) maps to a value whose $nearSphere
property is truthy; near() always stores a truthy coordinate array, so it
returns false after a top-level near("loc", [1, 2]) and stays true when
the same filter sits only inside an $or subtree. -/
theorem spec_c5_amended :
    (∀ (w : World) (i : ℕ) (r : ℕ),
      (getQ w i).filterV = .ref r →
      (∀ kv ∈ heapGet w.heap r, kv.1 ≠ "") →
      (Query.isSupportedOffline w i = false ↔
        ∃ kv ∈ heapGet w.heap r,
          truthy (Query.propGet w.heap kv.2 "$nearSphere") = true)) ∧
    Query.isSupportedOffline c5nearW 0 = false ∧
    Query.isSupportedOffline c5nestedW 0 = true := by
  refine ⟨?_, rfl, rfl⟩
  intro w i r href hne
  rw [isSupportedOffline_ref w i r href]
  rcases hfind : Query.findKey w.heap (heapGet w.heap r) "$nearSphere" with _ | k
  · simp only [hfind]
    rw [show (! truthy JVal.undef) = true from rfl]
    constructor
    · intro h
      exact absurd h (by decide)
    · rintro ⟨kv, hmem, hkv⟩
      have hnone : (heapGet w.heap r).find?
          (fun kv => truthy (Query.propGet w.heap kv.2 "$nearSphere")) = none := by
        unfold Query.findKey at hfind
        exact Option.map_eq_none'.mp hfind
      have hsome : ((heapGet w.heap r).find?
          (fun kv => truthy (Query.propGet w.heap kv.2 "$nearSphere"))).isSome :=
        List.find?_isSome.mpr ⟨kv, hmem, hkv⟩
      rw [hnone] at hsome
      exact absurd hsome (by decide)
  · obtain ⟨kv0, hf0, hk0⟩ : ∃ kv0, (heapGet w.heap r).find?
        (fun kv => truthy (Query.propGet w.heap kv.2 "$nearSphere")) = some kv0 ∧
        kv0.1 = k := by
      unfold Query.findKey at hfind
      exact Option.map_eq_some'.mp hfind
    have hp := List.find?_some hf0
    have hm := List.mem_of_find?_eq_some hf0
    have hkne : (k != "") = true := by
      rw [← hk0]
      exact bne_iff_ne.mpr (hne kv0 hm)
    simp only [hfind]
    rw [show truthy (JVal.str k) = (k != "") from rfl, hkne]
    constructor
    · intro _
      exact ⟨kv0, hm, hp⟩
    · intro _
      rfl

/-- C5 witness: the iff instantiated on the concrete near world, whose
top-level filter maps loc to an operator object holding a truthy
$nearSphere coordinate array. -/
theorem spec_c5_amended_witness :
    Query.isSupportedOffline c5nearW 0 = false := by
  have h := spec_c5_amended.1 c5nearW 0 0 rfl
    (by
      intro kv hkv
      have hobj : heapGet c5nearW.heap 0 = [("loc", .ref 2)] := rfl
      rw [hobj] at hkv
      rcases List.mem_singleton.1 hkv with rfl
      decide)
  refine h.mpr ⟨("loc", .ref 2), ?_, rfl⟩
  have hobj : heapGet c5nearW.heap 0 = [("loc", .ref 2)] := rfl
  rw [hobj]
  exact List.mem_singleton_self _

/-- The string coercion the numeric validators perform is coerceNum. -/
theorem coerce_if_eq (v : JVal) :
    (if isString v then coerceNum v else v) = coerceNum v := by
  cases v <;> rfl

/-- C6 counterexample: the anchored call matches("name", regular
expression with source ^foo) succeeds, but the stored $regex value is the
full source including the caret, not the de-anchored foo the claim
states. -/
theorem spec_c6_counterexample :
    (Query.matchesQ freshW 0 "name" (.re ⟨"^foo", false, false⟩)).2 = .ok 0 ∧
    resolveV c6okW.heap 12 (getQ c6okW 0).filterV =
      .obj [("name", .obj [("$regex", .str "^foo")])] ∧
    "^foo" ≠ "foo" :=
  ⟨rfl, rfl, by decide⟩

/-- C6 amended: matches fails (leaving the world unchanged) whenever the
pattern is unanchored, and fails with the ignoreCase message whenever
case-insensitivity is requested without an explicit ignoreCase of exactly
false; the anchored matches("name", source ^foo) succeeds and produces
the filter mapping name to $regex ^foo (the source, anchor included). -/
theorem spec_c6_amended :
    (∀ (w : World) (i : ℕ) (f : String) (r : Query.RegExpV) (o : Obj),
      Query.startsWithCaret r.source = false →
      ∃ e, Query.matchesQ w i f (.re r) o = (w, .error e)) ∧
    (∀ (w : World) (i : ℕ) (f : String) (r : Query.RegExpV) (o : Obj),
      (r.ignoreCase = true ∨ truthy (objGet o "ignoreCase") = true) →
      Query.jsStrictEq (objGet o "ignoreCase") (.bool false) = false →
      Query.matchesQ w i f (.re r) o =
        (w, .error "ignoreCase glag is not supported.")) ∧
    ((Query.matchesQ freshW 0 "name" (.re ⟨"^foo", false, false⟩)).2 = .ok 0 ∧
      resolveV c6okW.heap 12 (getQ c6okW 0).filterV =
        .obj [("name", .obj [("$regex", .str "^foo")])]) := by
  refine ⟨?_, ?_, rfl, rfl⟩
  · intro w i f r o h
    unfold Query.matchesQ
    by_cases hic : ((Query.toRegExp (.re r)).ignoreCase = true ∨
        truthy (objGet o "ignoreCase") = true) ∧
        ¬ Query.jsStrictEq (objGet o "ignoreCase") (.bool false) = true
    · rw [if_pos hic]
      exact ⟨_, rfl⟩
    · rw [if_neg hic]
      rw [if_pos (by simp [Query.toRegExp, h])]
      exact ⟨_, rfl⟩
  · intro w i f r o hor hneq
    unfold Query.matchesQ
    rw [if_pos ⟨hor, by simp [hneq]⟩]

/-- C6 witness: the unanchored pattern foo is rejected. -/
theorem spec_c6_amended_witness :
    ∃ e, Query.matchesQ freshW 0 "name" (.re ⟨"foo", false, false⟩) [] =
      (freshW, .error e) :=
  spec_c6_amended.1 freshW 0 "name" ⟨"foo", false, false⟩ [] rfl

/-- C7 counterexample: mod("x", "abc") coerces the string to NaN, which
is of number type though not finite, so the call succeeds and stores the
filter x mapsto $mod [NaN, 0] instead of failing as the claim requires. -/
theorem spec_c7_counterexample :
    coerceNum (.str "abc") = .num .nan ∧
    (Query.mod freshW 0 "x" (.str "abc")).2 = .ok 0 ∧
    resolveV c7nanW.heap 12 (getQ c7nanW 0).filterV =
      .obj [("x", .obj [("$mod", .arr [.num .nan, .num (.r 0)])])] :=
  ⟨rfl, rfl, rfl⟩

/-- C7 amended: mod coerces string arguments through parseFloat, fails
exactly when the coerced divisor or remainder is not of number type (NaN
and infinities pass), and otherwise stores field mapsto $mod with the
coerced pair; mod("x", "5") stores x mapsto $mod [5, 0]. -/
theorem spec_c7_amended :
    (∀ (w : World) (i : ℕ) (f : String) (d rm : JVal),
      isNumber (coerceNum d) = false →
        Query.mod w i f d rm = (w, .error "divisor must be a number")) ∧
    (∀ (w : World) (i : ℕ) (f : String) (d rm : JVal),
      isNumber (coerceNum d) = true → isNumber (coerceNum rm) = false →
        Query.mod w i f d rm = (w, .error "remainder must be a number")) ∧
    (∀ (w : World) (i : ℕ) (f : String) (d rm : JVal),
      isNumber (coerceNum d) = true → isNumber (coerceNum rm) = true →
        Query.mod w i f d rm =
          ((Query.addFilter w i f "$mod" (.arr [coerceNum d, coerceNum rm])).1,
           .ok (Query.addFilter w i f "$mod" (.arr [coerceNum d, coerceNum rm])).2)) ∧
    ((Query.mod freshW 0 "x" (.str "5")).2 = .ok 0 ∧
      resolveV c7okW.heap 12 (getQ c7okW 0).filterV =
        .obj [("x", .obj [("$mod", .arr [.num (.r 5), .num (.r 0)])])]) := by
  refine ⟨?_, ?_, ?_, rfl, ?_⟩
  · intro w i f d rm h
    unfold Query.mod
    simp only [coerce_if_eq]
    rw [if_pos (by simp [h])]
  · intro w i f d rm hd hr
    unfold Query.mod
    simp only [coerce_if_eq]
    rw [if_neg (by simp [hd])]
    rw [if_pos (by simp [hr])]
  · intro w i f d rm hd hr
    unfold Query.mod
    simp only [coerce_if_eq]
    rw [if_neg (by simp [hd])]
    rw [if_neg (by simp [hr])]
  · show _ = FTree.obj [("x", FTree.obj [("$mod",
      FTree.arr [FTree.num (JNum.r (mkRat 5 1)), FTree.num (JNum.r 0)])])]
    rfl

/-- C7 witness: a boolean divisor coerces to a non-number and is
rejected. -/
theorem spec_c7_amended_witness :
    Query.mod freshW 0 "x" (.bool true) (.num (.r 0)) =
      (freshW, .error "divisor must be a number") :=
  spec_c7_amended.1 freshW 0 "x" (.bool true) (.num (.r 0)) rfl

/-! Extension lemmas: the constructor and the join argument loop only
allocate, never touching existing objects or queries. -/

/-- Composition of append-extensions. -/
theorem append_extends_trans {α : Type} {a b c : List α} {t u : List α}
    (h1 : a = b ++ t) (h2 : c = a ++ u) : c = b ++ (t ++ u) := by
  subst h1
  subst h2
  rw [List.append_assoc]

/-- The sort setter only allocates. -/
theorem sortSetCore_heap (h : Heap) (v : JVal) :
    ∃ t, (sortSetCore h v).1 = h ++ t := by
  unfold sortSetCore
  split
  · exact ⟨[], (List.append_nil h).symm⟩
  · split
    · exact ⟨[], (List.append_nil h).symm⟩
    · exact ⟨[[]], rfl⟩

/-- The constructor body only appends to the given heap and query list. -/
theorem constructorCore_extends (w : World) (h2 : Heap) (a b c d e : JVal) :
    (∃ t, (constructorCore w h2 a b c d e).1.heap = h2 ++ t) ∧
    (∃ u, (constructorCore w h2 a b c d e).1.qs = w.qs ++ u) := by
  unfold constructorCore
  rcases hfs : fieldsSetCore a with e1 | fv
  · exact ⟨⟨[], (List.append_nil h2).symm⟩, ⟨[], (List.append_nil w.qs).symm⟩⟩
  · rcases hss : sortSetCore h2 c with ⟨h3, res⟩
    obtain ⟨t3, ht3⟩ : ∃ t, h3 = h2 ++ t := by
      have := sortSetCore_heap h2 c
      rw [hss] at this
      exact this
    rcases res with e2 | sv
    · exact ⟨⟨t3, ht3⟩, ⟨[], (List.append_nil w.qs).symm⟩⟩
    · rcases hls : limitSetCore d with e3 | lv
      · exact ⟨⟨t3, ht3⟩, ⟨[], (List.append_nil w.qs).symm⟩⟩
      · rcases hks : skipSetCore e with e4 | kv
        · exact ⟨⟨t3, ht3⟩, ⟨[], (List.append_nil w.qs).symm⟩⟩
        · exact ⟨⟨t3, ht3⟩, ⟨[⟨fv, b, sv, lv, kv, none, none⟩], rfl⟩⟩

/-- The constructor only appends to the heap and query list of the world. -/
theorem constructorOpts_extends (w : World) (opts : List (String × JVal)) :
    (∃ t, (constructorOpts w opts).1.heap = w.heap ++ t) ∧
    (∃ u, (constructorOpts w opts).1.qs = w.qs ++ u) := by
  have heq : constructorOpts w opts =
      constructorCore w ((w.heap ++ [[]]) ++ [[]])
        (pickOpt opts "fields" (.arr [])) (pickOpt opts "filter" (.ref w.heap.length))
        (pickOpt opts "sort" (.ref (w.heap ++ [[]]).length)) (pickOpt opts "limit" .null)
        (pickOpt opts "skip" (.num (.r 0))) := rfl
  rw [heq]
  obtain ⟨⟨t, ht⟩, hu⟩ := constructorCore_extends w ((w.heap ++ [[]]) ++ [[]])
    (pickOpt opts "fields" (.arr [])) (pickOpt opts "filter" (.ref w.heap.length))
    (pickOpt opts "sort" (.ref (w.heap ++ [[]]).length)) (pickOpt opts "limit" .null)
    (pickOpt opts "skip" (.num (.r 0)))
  refine ⟨⟨[[]] ++ ([[]] ++ t), ?_⟩, hu⟩
  rw [ht]
  simp [List.append_assoc]

/-- Wrapping a value into a fresh Query only appends. -/
theorem newQueryFromVal_extends (w : World) (v : JVal) :
    (∃ t, (newQueryFromVal w v).1.heap = w.heap ++ t) ∧
    (∃ u, (newQueryFromVal w v).1.qs = w.qs ++ u) := by
  unfold newQueryFromVal
  exact constructorOpts_extends w _

/-- The join argument loop only appends. -/
theorem joinMapArgs_extends (args : List Query.QArg) :
    ∀ w : World, (∃ t, (Query.joinMapArgs w args).1.heap = w.heap ++ t) ∧
      (∃ u, (Query.joinMapArgs w args).1.qs = w.qs ++ u) := by
  induction args with
  | nil =>
    intro w
    exact ⟨⟨[], (List.append_nil _).symm⟩, ⟨[], (List.append_nil _).symm⟩⟩
  | cons hd rest ih =>
    intro w
    rcases hd with j | x
    · rcases hrec : Query.joinMapArgs w rest with ⟨w', res⟩
      have heq : Query.joinMapArgs w (.q j :: rest) =
          (match Query.joinMapArgs w rest with
           | (w', .error e) => (w', Except.error e)
           | (w', .ok fs) => (w', Except.ok ((toPlainObject w j).filter :: fs))) := rfl
      rw [heq, hrec]
      have hih := ih w
      rw [hrec] at hih
      rcases res with e | fs
      · exact hih
      · exact hih
    · have heq : Query.joinMapArgs w (.v x :: rest) =
          (if isObject x then
            match newQueryFromVal w x with
            | (w', .error e) => (w', .error e)
            | (w', .ok nj) =>
              (match Query.joinMapArgs w' rest with
               | (w'', .error e) => (w'', .error e)
               | (w'', .ok fs) => (w'', .ok ((toPlainObject w' nj).filter :: fs)))
          else
            (w, .error "query argument must be of type: Kinvey.Query[] or Object[].")) := rfl
      rw [heq]
      by_cases hobj : isObject x = true
      · rw [if_pos hobj]
        rcases hctor : newQueryFromVal w x with ⟨wc, cres⟩
        have hext := newQueryFromVal_extends w x
        rw [hctor] at hext
        obtain ⟨⟨t1, ht1⟩, ⟨u1, hu1⟩⟩ := hext
        rcases cres with e | nj
        · exact ⟨⟨t1, ht1⟩, ⟨u1, hu1⟩⟩
        · rcases hrec : Query.joinMapArgs wc rest with ⟨w'', res⟩
          dsimp only
          rw [hrec]
          have hih := ih wc
          rw [hrec] at hih
          obtain ⟨⟨t2, ht2⟩, ⟨u2, hu2⟩⟩ := hih
          rcases res with e | fs
          · exact ⟨⟨t1 ++ t2, append_extends_trans ht1 ht2⟩,
              ⟨u1 ++ u2, append_extends_trans hu1 hu2⟩⟩
          · exact ⟨⟨t1 ++ t2, append_extends_trans ht1 ht2⟩,
              ⟨u1 ++ u2, append_extends_trans hu1 hu2⟩⟩
      · rw [if_neg hobj]
        exact ⟨⟨[], (List.append_nil _).symm⟩, ⟨[], (List.append_nil _).symm⟩⟩

/-- C9: the construction-time validations fail before any filter state is
mutated.  A type-mismatched comparison value makes greaterThan throw with
the world untouched; a conflicting case-insensitivity flag or an
unanchored pattern makes matches throw with the world untouched; and when
join throws (a non-Query, non-object argument, or a validation failure
while wrapping an object argument), every pre-existing query record and
every pre-existing heap object -- in particular the filter object of the
receiver -- is unchanged, since the argument loop only allocates. -/
theorem spec_c9 :
    (∀ (w : World) (i : ℕ) (f : String) (v : JVal),
      isNumber v = false → isString v = false →
        Query.greaterThan w i f v = (w, .error "You must supply a number or string.")) ∧
    (∀ (w : World) (i : ℕ) (f : String) (r : Query.RegExpV) (o : Obj),
      (r.ignoreCase = true ∨ truthy (objGet o "ignoreCase") = true) →
      Query.jsStrictEq (objGet o "ignoreCase") (.bool false) = false →
        Query.matchesQ w i f (.re r) o =
          (w, .error "ignoreCase glag is not supported.")) ∧
    (∀ (w : World) (i : ℕ) (f : String) (r : Query.RegExpV) (o : Obj),
      Query.startsWithCaret r.source = false →
        ∃ e, Query.matchesQ w i f (.re r) o = (w, .error e)) ∧
    (∀ (w : World) (i : ℕ) (op : String) (args : List Query.QArg)
        (w' : World) (e : String),
      Query.join w i op args = (w', .error e) →
        (∀ j, j < w.qs.length → getQ w' j = getQ w j) ∧
        (∀ r', r' < w.heap.length → heapGet w'.heap r' = heapGet w.heap r')) := by
  refine ⟨?_, ?_, ?_, ?_⟩
  · intro w i f v hn hs
    unfold Query.greaterThan
    rw [if_pos (by simp [hn, hs])]
  · intro w i f r o hor hneq
    unfold Query.matchesQ
    rw [if_pos ⟨hor, by simp [hneq]⟩]
  · intro w i f r o h
    unfold Query.matchesQ
    by_cases hic : ((Query.toRegExp (.re r)).ignoreCase = true ∨
        truthy (objGet o "ignoreCase") = true) ∧
        ¬ Query.jsStrictEq (objGet o "ignoreCase") (.bool false) = true
    · rw [if_pos hic]
      exact ⟨_, rfl⟩
    · rw [if_neg hic]
      rw [if_pos (by simp [Query.toRegExp, h])]
      exact ⟨_, rfl⟩
  · intro w i op args w' e hj
    unfold Query.join at hj
    rcases hm : Query.joinMapArgs w args with ⟨w1, res⟩
    rw [hm] at hj
    have hext := joinMapArgs_extends args w
    rw [hm] at hext
    obtain ⟨⟨t, ht⟩, ⟨u, hu⟩⟩ := hext
    rcases res with e1 | fs
    · obtain ⟨hw, he⟩ : w1 = w' ∧ Except.error e1 = (Except.error e : Except String ℕ) := by
        injection hj with h1 h2
        exact ⟨h1, h2⟩
      subst hw
      constructor
      · intro j hjlt
        unfold getQ
        rw [hu]
        exact getD_append_left w.qs u j default hjlt
      · intro r' hrlt
        unfold heapGet
        rw [ht]
        exact getD_append_left w.heap t r' [] hrlt
    · exfalso
      dsimp only at hj
      split at hj
      · injection hj with h1 h2
        exact Except.noConfusion h2
      · injection hj with h1 h2
        exact Except.noConfusion h2

/-- C9 witness: the type mismatch, anchoring, flag, and join checks on
concrete inputs, each leaving the world as it was. -/
theorem spec_c9_witness :
    Query.greaterThan freshW 0 "a" (.bool true) =
      (freshW, .error "You must supply a number or string.") ∧
    Query.matchesQ freshW 0 "a" (.re ⟨"^x", true, false⟩) [] =
      (freshW, .error "ignoreCase glag is not supported.") ∧
    (∃ e, Query.matchesQ freshW 0 "a" (.re ⟨"x", false, false⟩) [] =
      (freshW, .error e)) :=
  ⟨spec_c9.1 freshW 0 "a" (.bool true) rfl rfl,
   spec_c9.2.1 freshW 0 "a" ⟨"^x", true, false⟩ [] (Or.inl rfl) rfl,
   spec_c9.2.2.1 freshW 0 "a" ⟨"x", false, false⟩ [] rfl⟩

/-! The skip and limit invariant over arbitrary public call sequences. -/

/-- The properties of the skip and limit slots that the setters actually
enforce: skip is of number type, and limit is of number type whenever it
is truthy. -/
def GoodQ (q : QRec) : Prop :=
  isNumber q.skipV = true ∧ (truthy q.limitV = true → isNumber q.limitV = true)

/-- The invariant over every query of a world. -/
def SkipLimitInv (w : World) : Prop := ∀ q ∈ w.qs, GoodQ q

/-- The default (out-of-range) query record is good. -/
theorem goodQ_default : GoodQ default := by
  constructor
  · rfl
  · intro h
    exact absurd h (by decide)

/-- Any read query record of an invariant world is good. -/
theorem inv_getQ (w : World) (i : ℕ) (h : SkipLimitInv w) : GoodQ (getQ w i) := by
  rcases getD_mem_or_eq w.qs i default with hm | he
  · exact h _ hm
  · unfold getQ
    rw [he]
    exact goodQ_default

/-- Replacing a record with a good record preserves the invariant. -/
theorem inv_setQ (w : World) (i : ℕ) (q : QRec)
    (h : SkipLimitInv w) (hg : GoodQ q) : SkipLimitInv (setQ w i q) := by
  intro q' hq'
  rcases List.mem_or_eq_of_mem_set hq' with hm | he
  · exact h _ hm
  · rw [he]
    exact hg

/-- A world with the same query list satisfies the same invariant. -/
theorem inv_of_qs_eq {w w' : World} (h : SkipLimitInv w) (he : w'.qs = w.qs) :
    SkipLimitInv w' := by
  intro q hq
  rw [he] at hq
  exact h _ hq

/-- A successful skip setter stores a number. -/
theorem skipSetCore_isNumber {v v' : JVal} (h : skipSetCore v = .ok v') :
    isNumber v' = true := by
  unfold skipSetCore at h
  rw [coerce_if_eq] at h
  dsimp only at h
  split at h
  · exact Except.noConfusion h
  · next hcond =>
    injection h with h'
    rw [← h']
    exact not_not.mp hcond

/-- A successful limit setter stores a number whenever the stored value
is truthy. -/
theorem limitSetCore_good {v v' : JVal} (h : limitSetCore v = .ok v') :
    truthy v' = true → isNumber v' = true := by
  unfold limitSetCore at h
  rw [coerce_if_eq] at h
  dsimp only at h
  split at h
  · exact Except.noConfusion h
  · next hcond =>
    injection h with h'
    rw [← h']
    intro ht
    by_contra hn
    exact hcond ⟨ht, fun hnum => hn hnum⟩

/-- addFilter mutates the heap only. -/
theorem addFilter_qs (w : World) (i : ℕ) (f c : String) (v : JVal) :
    (Query.addFilter w i f c v).1.qs = w.qs := by
  unfold Query.addFilter
  split
  · dsimp only [alloc]
    split <;> dsimp only
  · rfl

/-- The per-field comparison wrappers mutate the heap only. -/
theorem equalTo_qs (w : World) (i : ℕ) (f : String) (v : JVal) :
    (Query.equalTo w i f v).1.qs = w.qs := addFilter_qs w i f "$eq" v

/-- notEqualTo mutates the heap only. -/
theorem notEqualTo_qs (w : World) (i : ℕ) (f : String) (v : JVal) :
    (Query.notEqualTo w i f v).1.qs = w.qs := addFilter_qs w i f "$ne" v

/-- contains mutates the heap only. -/
theorem contains_qs (w : World) (i : ℕ) (f : String) (v : JVal) :
    (Query.contains w i f v).1.qs = w.qs := by
  unfold Query.contains
  exact addFilter_qs w i f "$in" _

/-- containsAll mutates the heap only. -/
theorem containsAll_qs (w : World) (i : ℕ) (f : String) (v : JVal) :
    (Query.containsAll w i f v).1.qs = w.qs := by
  unfold Query.containsAll
  exact addFilter_qs w i f "$all" _

/-- notContainedIn mutates the heap only. -/
theorem notContainedIn_qs (w : World) (i : ℕ) (f : String) (v : JVal) :
    (Query.notContainedIn w i f v).1.qs = w.qs := by
  unfold Query.notContainedIn
  exact addFilter_qs w i f "$nin" _

/-- existsOp mutates the heap only. -/
theorem existsOp_qs (w : World) (i : ℕ) (f : String) (v : JVal) :
    (Query.existsOp w i f v).1.qs = w.qs := by
  unfold Query.existsOp
  exact addFilter_qs w i f "$exists" _

/-- greaterThan mutates the heap only. -/
theorem greaterThan_qs (w : World) (i : ℕ) (f : String) (v : JVal) :
    (Query.greaterThan w i f v).1.qs = w.qs := by
  unfold Query.greaterThan
  split
  · rfl
  · rcases ha : Query.addFilter w i f "$gt" v with ⟨w2, j⟩
    have h1 := addFilter_qs w i f "$gt" v
    rw [ha] at h1
    exact h1

/-- greaterThanOrEqualTo mutates the heap only. -/
theorem greaterThanOrEqualTo_qs (w : World) (i : ℕ) (f : String) (v : JVal) :
    (Query.greaterThanOrEqualTo w i f v).1.qs = w.qs := by
  unfold Query.greaterThanOrEqualTo
  split
  · rfl
  · rcases ha : Query.addFilter w i f "$gte" v with ⟨w2, j⟩
    have h1 := addFilter_qs w i f "$gte" v
    rw [ha] at h1
    exact h1

/-- lessThan mutates the heap only. -/
theorem lessThan_qs (w : World) (i : ℕ) (f : String) (v : JVal) :
    (Query.lessThan w i f v).1.qs = w.qs := by
  unfold Query.lessThan
  split
  · rfl
  · rcases ha : Query.addFilter w i f "$lt" v with ⟨w2, j⟩
    have h1 := addFilter_qs w i f "$lt" v
    rw [ha] at h1
    exact h1

/-- lessThanOrEqualTo mutates the heap only. -/
theorem lessThanOrEqualTo_qs (w : World) (i : ℕ) (f : String) (v : JVal) :
    (Query.lessThanOrEqualTo w i f v).1.qs = w.qs := by
  unfold Query.lessThanOrEqualTo
  split
  · rfl
  · rcases ha : Query.addFilter w i f "$lte" v with ⟨w2, j⟩
    have h1 := addFilter_qs w i f "$lte" v
    rw [ha] at h1
    exact h1

/-- mod mutates the heap only. -/
theorem mod_qs (w : World) (i : ℕ) (f : String) (d rm : JVal) :
    (Query.mod w i f d rm).1.qs = w.qs := by
  unfold Query.mod
  rw [coerce_if_eq, coerce_if_eq]
  dsimp only
  split
  · rfl
  · split
    · rfl
    · rcases ha : Query.addFilter w i f "$mod" (.arr [coerceNum d, coerceNum rm])
        with ⟨w2, j⟩
      have h1 := addFilter_qs w i f "$mod" (.arr [coerceNum d, coerceNum rm])
      rw [ha] at h1
      exact h1

/-- size mutates the heap only. -/
theorem size_qs (w : World) (i : ℕ) (f : String) (v : JVal) :
    (Query.size w i f v).1.qs = w.qs := by
  unfold Query.size
  rw [coerce_if_eq]
  dsimp only
  split
  · rfl
  · rcases ha : Query.addFilter w i f "$size" (coerceNum v) with ⟨w2, j⟩
    have h1 := addFilter_qs w i f "$size" (coerceNum v)
    rw [ha] at h1
    exact h1

/-- matches mutates the heap only. -/
theorem matchesQ_qs (w : World) (i : ℕ) (f : String) (re : Query.RegExpArg)
    (o : Obj) : (Query.matchesQ w i f re o).1.qs = w.qs := by
  unfold Query.matchesQ
  dsimp only
  split
  · rfl
  · split
    · rfl
    · rcases ha : Query.addFilter w i f "$regex" (.str (Query.toRegExp re).source)
        with ⟨w1, res⟩
      have h1 := addFilter_qs w i f "$regex" (.str (Query.toRegExp re).source)
      rw [ha] at h1
      dsimp only
      have h2 : ∀ (fl : List String),
          (if fl.isEmpty = true then w1
           else (Query.addFilter w1 i f "$options" (JVal.str (String.join fl))).1).qs
            = w.qs := by
        intro fl
        split
        · exact h1
        · rw [addFilter_qs]
          exact h1
      exact h2 _

/-- near mutates the heap only. -/
theorem near_qs (w : World) (i : ℕ) (f : String) (c m : JVal) :
    (Query.near w i f c m).1.qs = w.qs := by
  unfold Query.near
  split
  · rfl
  · dsimp only
    rcases ha : Query.addFilter w i f "$nearSphere"
      (.arr [Query.arrIdx c 0, Query.arrIdx c 1]) with ⟨w1, res⟩
    have h1 := addFilter_qs w i f "$nearSphere" (.arr [Query.arrIdx c 0, Query.arrIdx c 1])
    rw [ha] at h1
    dsimp only
    split
    · rcases hb : Query.addFilter w1 i f "$maxDistance" m with ⟨w2, j2⟩
      have h2 := addFilter_qs w1 i f "$maxDistance" m
      rw [hb] at h2
      rw [h2, h1]
    · exact h1

/-- withinBox mutates the heap only. -/
theorem withinBox_qs (w : World) (i : ℕ) (f : String) (bl ur : JVal) :
    (Query.withinBox w i f bl ur).1.qs = w.qs := by
  unfold Query.withinBox
  split
  · rfl
  · split
    · rfl
    · dsimp only [alloc]
      rcases ha : Query.addFilter
        { w with heap := w.heap ++ [[("$box", (.arr
          [.arr [.num (Query.parseFloatVal (Query.arrIdx bl 0)),
                 .num (Query.parseFloatVal (Query.arrIdx bl 1))],
           .arr [.num (Query.parseFloatVal (Query.arrIdx ur 0)),
                 .num (Query.parseFloatVal (Query.arrIdx ur 1))]] : JVal))]] }
        i f "$within" (.ref w.heap.length) with ⟨w2, j⟩
      have h1 := addFilter_qs
        { w with heap := w.heap ++ [[("$box", (.arr
          [.arr [.num (Query.parseFloatVal (Query.arrIdx bl 0)),
                 .num (Query.parseFloatVal (Query.arrIdx bl 1))],
           .arr [.num (Query.parseFloatVal (Query.arrIdx ur 0)),
                 .num (Query.parseFloatVal (Query.arrIdx ur 1))]] : JVal))]] }
        i f "$within" (.ref w.heap.length)
      rw [ha] at h1
      exact h1

/-- withinPolygon mutates the heap only. -/
theorem withinPolygon_qs (w : World) (i : ℕ) (f : String) (cs : JVal) :
    (Query.withinPolygon w i f cs).1.qs = w.qs := by
  unfold Query.withinPolygon
  split
  · split
    · rfl
    · split
      · rfl
      · next mapped hmap =>
        dsimp only [alloc]
        rcases ha : Query.addFilter
          { w with heap := w.heap ++ [[("$polygon", (.arr mapped : JVal))]] }
          i f "$within" (.ref w.heap.length) with ⟨w2, j⟩
        have h1 := addFilter_qs
          { w with heap := w.heap ++ [[("$polygon", (.arr mapped : JVal))]] }
          i f "$within" (.ref w.heap.length)
        rw [ha] at h1
        exact h1
  · rfl

/-- sortAssign mutates the heap only. -/
theorem sortAssign_qs (w : World) (i : ℕ) (f : String) (v : JVal) :
    (Query.sortAssign w i f v).qs = w.qs := by
  unfold Query.sortAssign
  split <;> rfl

/-- ascending mutates the heap only. -/
theorem ascending_qs : ∀ (fuel : ℕ) (w : World) (i : ℕ) (f : String),
    (Query.ascending fuel w i f).1.qs = w.qs := by
  intro fuel
  induction fuel with
  | zero => intro w i f; rfl
  | succ n ih =>
    intro w i f
    unfold Query.ascending
    split
    · next p hp =>
      rcases ha : Query.ascending n w p f with ⟨w', j⟩
      have h1 := ih w p f
      rw [ha] at h1
      exact h1
    · exact sortAssign_qs w i f _

/-- descending mutates the heap only. -/
theorem descending_qs : ∀ (fuel : ℕ) (w : World) (i : ℕ) (f : String),
    (Query.descending fuel w i f).1.qs = w.qs := by
  intro fuel
  induction fuel with
  | zero => intro w i f; rfl
  | succ n ih =>
    intro w i f
    unfold Query.descending
    split
    · next p hp =>
      rcases ha : Query.descending n w p f with ⟨w', j⟩
      have h1 := ih w p f
      rw [ha] at h1
      exact h1
    · exact sortAssign_qs w i f _

/-- The fields setter preserves the invariant: it never touches the skip
or limit slots. -/
theorem setFields_inv : ∀ (fuel : ℕ) (w : World) (i : ℕ) (v : JVal),
    SkipLimitInv w → SkipLimitInv (Query.setFields fuel w i v).1 := by
  intro fuel
  induction fuel with
  | zero => intro w i v h; exact h
  | succ n ih =>
    intro w i v h
    unfold Query.setFields
    split
    · exact h
    · split
      · exact ih _ _ _ h
      · exact inv_setQ w i _ h ⟨(inv_getQ w i h).1, (inv_getQ w i h).2⟩

/-- The sort setter preserves the invariant. -/
theorem setSort_inv (w : World) (i : ℕ) (v : JVal) (h : SkipLimitInv w) :
    SkipLimitInv (Query.setSort w i v).1 := by
  unfold Query.setSort
  split
  · exact inv_of_qs_eq h rfl
  · split
    · exact inv_of_qs_eq h rfl
    · exact inv_setQ _ i _ (inv_of_qs_eq h rfl)
        ⟨(inv_getQ w i h).1, (inv_getQ w i h).2⟩

/-- The limit setter preserves the invariant: on success it stores a value
that is a number whenever truthy. -/
theorem setLimit_inv : ∀ (fuel : ℕ) (w : World) (i : ℕ) (v : JVal),
    SkipLimitInv w → SkipLimitInv (Query.setLimit fuel w i v).1 := by
  intro fuel
  induction fuel with
  | zero => intro w i v h; exact h
  | succ n ih =>
    intro w i v h
    unfold Query.setLimit
    split
    · exact h
    · next lv hlv =>
      split
      · exact ih _ _ _ h
      · exact inv_setQ w i _ h ⟨(inv_getQ w i h).1, limitSetCore_good hlv⟩

/-- The skip setter preserves the invariant: on success it stores a
number. -/
theorem setSkip_inv (w : World) (i : ℕ) (v : JVal) (h : SkipLimitInv w) :
    SkipLimitInv (Query.setSkip w i v).1 := by
  unfold Query.setSkip
  split
  · exact h
  · next kv hkv =>
    split
    · exact h
    · exact inv_setQ w i _ h ⟨skipSetCore_isNumber hkv, (inv_getQ w i h).2⟩

/-- The constructor body preserves the invariant: the appended record
passed both the limit and skip setters. -/
theorem constructorCore_inv (w : World) (h2 : Heap)
    (fieldsIn filterIn sortIn limitIn skipIn : JVal) (h : SkipLimitInv w) :
    SkipLimitInv (constructorCore w h2 fieldsIn filterIn sortIn limitIn skipIn).1 := by
  unfold constructorCore
  split
  · exact inv_of_qs_eq h rfl
  · split
    · exact inv_of_qs_eq h rfl
    · split
      · exact inv_of_qs_eq h rfl
      · next lv hlv =>
        split
        · exact inv_of_qs_eq h rfl
        · next kv hkv =>
          intro q hq
          rcases List.mem_append.mp hq with hm | hm
          · exact h _ hm
          · rw [List.mem_singleton] at hm
            subst hm
            exact ⟨skipSetCore_isNumber hkv, limitSetCore_good hlv⟩

/-- The constructor preserves the invariant for any option list. -/
theorem constructorOpts_inv (w : World) (opts : List (String × JVal))
    (h : SkipLimitInv w) : SkipLimitInv (constructorOpts w opts).1 := by
  unfold constructorOpts
  dsimp only [alloc]
  exact constructorCore_inv w _ _ _ _ _ _ h

/-- new Query() preserves the invariant. -/
theorem newQuery_inv (w : World) (h : SkipLimitInv w) :
    SkipLimitInv (newQuery w).1 := by
  unfold newQuery
  split
  · next w' j heq =>
    have h1 := constructorOpts_inv w [] h
    rw [heq] at h1
    exact h1
  · next w' heq =>
    have h1 := constructorOpts_inv w [] h
    rw [heq] at h1
    exact h1

/-- new Query(v) preserves the invariant. -/
theorem newQueryFromVal_inv (w : World) (v : JVal) (h : SkipLimitInv w) :
    SkipLimitInv (newQueryFromVal w v).1 := by
  unfold newQueryFromVal
  exact constructorOpts_inv w _ h

/-- The argument normalisation loop of join preserves the invariant. -/
theorem joinMapArgs_inv : ∀ (args : List Query.QArg) (w : World),
    SkipLimitInv w → SkipLimitInv (Query.joinMapArgs w args).1 := by
  intro args
  induction args with
  | nil => intro w h; exact h
  | cons a rest ih =>
    intro w h
    cases a with
    | q j =>
      unfold Query.joinMapArgs
      dsimp only
      split
      · next w1 e heq =>
        have h1 := ih w h
        rw [heq] at h1
        exact h1
      · next w1 fs heq =>
        have h1 := ih w h
        rw [heq] at h1
        exact h1
    | v x =>
      unfold Query.joinMapArgs
      split
      · split
        · next w1 e heq =>
          have h1 := newQueryFromVal_inv w x h
          rw [heq] at h1
          exact h1
        · next w1 nj heq =>
          have h1 := newQueryFromVal_inv w x h
          rw [heq] at h1
          dsimp only
          split
          · next w2 e2 heq2 =>
            have h2 := ih w1 h1
            rw [heq2] at h2
            exact h2
          · next w2 fs heq2 =>
            have h2 := ih w1 h1
            rw [heq2] at h2
            exact h2
      · exact h

/-- Query.join preserves the invariant: the heap surgery never touches the
skip or limit slots, and the scope child it may create is a freshly
constructed Query whose parent assignment changes no numeric slot. -/
theorem join_inv (w : World) (i : ℕ) (op : String) (queries : List Query.QArg)
    (h : SkipLimitInv w) : SkipLimitInv (Query.join w i op queries).1 := by
  unfold Query.join
  split
  · next w1 e heq =>
    have h1 := joinMapArgs_inv queries w h
    rw [heq] at h1
    exact h1
  · next w1 fs heq =>
    have h1 := joinMapArgs_inv queries w h
    rw [heq] at h1
    by_cases hfs : fs.isEmpty = true
    · rw [if_pos hfs]
      rcases hnq : newQuery w1 with ⟨w2, nid⟩
      have h2 := newQuery_inv w1 h1
      rw [hnq] at h2
      dsimp only
      have h3 : SkipLimitInv (setQ w2 nid { getQ w2 nid with parentProp := some i }) :=
        inv_setQ w2 nid _ h2 ⟨(inv_getQ w2 nid h2).1, (inv_getQ w2 nid h2).2⟩
      split
      · exact inv_of_qs_eq h3 rfl
      · exact h3
    · rw [if_neg hfs]
      dsimp only
      split
      · exact inv_of_qs_eq h1 rfl
      · exact h1

/-- Query.and preserves the invariant. -/
theorem and_inv (w : World) (i : ℕ) (args : List Query.QArg)
    (h : SkipLimitInv w) : SkipLimitInv (Query.and w i args).1 :=
  join_inv w i "$and" args h

/-- Query.nor preserves the invariant for every fuel bound. -/
theorem nor_inv : ∀ (fuel : ℕ) (w : World) (i : ℕ) (args : List Query.QArg),
    SkipLimitInv w → SkipLimitInv (Query.nor fuel w i args).1 := by
  intro fuel
  induction fuel with
  | zero => intro w i args h; exact join_inv w i "$nor" args h
  | succ n ih =>
    intro w i args h
    unfold Query.nor
    split
    · split
      · exact ih _ _ _ h
      · exact join_inv _ _ _ _ h
    · exact join_inv _ _ _ _ h

/-- Query.or preserves the invariant for every fuel bound. -/
theorem or_inv : ∀ (fuel : ℕ) (w : World) (i : ℕ) (args : List Query.QArg),
    SkipLimitInv w → SkipLimitInv (Query.or fuel w i args).1 := by
  intro fuel
  induction fuel with
  | zero => intro w i args h; exact join_inv w i "$or" args h
  | succ n ih =>
    intro w i args h
    unfold Query.or
    split
    · exact ih _ _ _ h
    · exact join_inv _ _ _ _ h

/-- Every public operation preserves the invariant. -/
theorem stepOp_inv (w : World) (t : ℕ) (op : Op) (h : SkipLimitInv w) :
    SkipLimitInv (stepOp w t op) := by
  cases op with
  | equalTo f v => exact inv_of_qs_eq h (equalTo_qs w t f v)
  | notEqualTo f v => exact inv_of_qs_eq h (notEqualTo_qs w t f v)
  | contains f v => exact inv_of_qs_eq h (contains_qs w t f v)
  | containsAll f v => exact inv_of_qs_eq h (containsAll_qs w t f v)
  | notContainedIn f v => exact inv_of_qs_eq h (notContainedIn_qs w t f v)
  | greaterThan f v => exact inv_of_qs_eq h (greaterThan_qs w t f v)
  | greaterThanOrEqualTo f v => exact inv_of_qs_eq h (greaterThanOrEqualTo_qs w t f v)
  | lessThan f v => exact inv_of_qs_eq h (lessThan_qs w t f v)
  | lessThanOrEqualTo f v => exact inv_of_qs_eq h (lessThanOrEqualTo_qs w t f v)
  | existsOp f v => exact inv_of_qs_eq h (existsOp_qs w t f v)
  | modOp f d r => exact inv_of_qs_eq h (mod_qs w t f d r)
  | matchesOp f re o => exact inv_of_qs_eq h (matchesQ_qs w t f re o)
  | nearOp f c m => exact inv_of_qs_eq h (near_qs w t f c m)
  | withinBoxOp f bl ur => exact inv_of_qs_eq h (withinBox_qs w t f bl ur)
  | withinPolygonOp f cs => exact inv_of_qs_eq h (withinPolygon_qs w t f cs)
  | sizeOp f s => exact inv_of_qs_eq h (size_qs w t f s)
  | ascending f => exact inv_of_qs_eq h (ascending_qs (w.qs.length + 1) w t f)
  | descending f => exact inv_of_qs_eq h (descending_qs (w.qs.length + 1) w t f)
  | addFilter f c v => exact inv_of_qs_eq h (addFilter_qs w t f c v)
  | andOp args => exact and_inv w t args h
  | norOp args => exact nor_inv (w.qs.length + 1) w t args h
  | orOp args => exact or_inv (w.qs.length + 1) w t args h
  | setFields v => exact setFields_inv (w.qs.length + 1) w t v h
  | setSort v => exact setSort_inv w t v h
  | setLimit v => exact setLimit_inv (w.qs.length + 1) w t v h
  | setSkip v => exact setSkip_inv w t v h

/-- Arbitrary call sequences preserve the invariant. -/
theorem run_inv : ∀ (ops : List (ℕ × Op)) (w : World),
    SkipLimitInv w → SkipLimitInv (run w ops) := by
  intro ops
  induction ops with
  | nil => intro w h; exact h
  | cons p rest ih =>
    intro w h
    rcases p with ⟨t, op⟩
    exact ih _ (stepOp_inv w t op h)

/-- The empty world satisfies the invariant. -/
theorem emptyWorld_inv : SkipLimitInv emptyWorld :=
  fun q hq => absurd hq (List.not_mem_nil q)

/-- C8 (amended): after any sequence of public operations on any queries
of a world holding one freshly constructed Query, every skip slot holds a
value of JavaScript number type, and every limit slot that is truthy
holds a value of number type.  The setters enforce exactly the lodash
isNumber type tests, so NaN, infinite and negative values pass; the
finiteness and non-negativity asserted by the specification are not
enforced (see the counterexample). -/
theorem spec_c8_amended (ops : List (ℕ × Op)) (i : ℕ) :
    isNumber (getQ (run freshW ops) i).skipV = true ∧
    (truthy (getQ (run freshW ops) i).limitV = true →
      isNumber (getQ (run freshW ops) i).limitV = true) :=
  inv_getQ _ i (run_inv ops freshW (newQuery_inv emptyWorld emptyWorld_inv))

/-- C8 witness: a concrete run (skip set to -5, limit set to Infinity)
where both conjuncts of the amended claim are discharged at evaluated
inputs. -/
theorem spec_c8_amended_witness :
    isNumber (getQ (run freshW
      [(0, Op.setSkip (.num (.r (-5)))), (0, Op.setLimit (.num .inf))]) 0).skipV = true ∧
    isNumber (getQ (run freshW
      [(0, Op.setSkip (.num (.r (-5)))), (0, Op.setLimit (.num .inf))]) 0).limitV = true :=
  ⟨(spec_c8_amended [(0, Op.setSkip (.num (.r (-5)))), (0, Op.setLimit (.num .inf))] 0).1,
   (spec_c8_amended [(0, Op.setSkip (.num (.r (-5)))), (0, Op.setLimit (.num .inf))] 0).2
     (by rfl)⟩

/-- C8 counterexample: the original finiteness and non-negativity claim
fails.  Public setter calls leave skip at -5 (accepted, negative), leave
skip at NaN from the string input "abc", and leave limit at Infinity
(present but not finite). -/
theorem spec_c8_counterexample :
    (getQ (run freshW [(0, Op.setSkip (.num (.r (-5))))]) 0).skipV
      = .num (.r (-5)) ∧
    ((-5 : ℚ) < 0) ∧
    (getQ (run freshW [(0, Op.setSkip (.str "abc"))]) 0).skipV = .num .nan ∧
    (getQ (run freshW [(0, Op.setLimit (.num .inf))]) 0).limitV = .num .inf := by
  refine ⟨rfl, by norm_num, rfl, rfl⟩

end KinveyQuery
